import Mathlib

/-!
Verification development for the OpenTTD-patches network packet layer
(src/network/core/packet.cpp, src/network/core/tcp.cpp) and the saveload
gamma codec (src/saveload/saveload_buffer.cpp).

Bytes are modelled as `Nat` values; every value written into a byte buffer
is reduced mod 256 at the point where the C++ code converts to `byte`.
Machine-word arithmetic that cannot overflow for the value ranges involved
is modelled directly on `Nat` (the C++ uses `uint`/`size_t` wide enough for
every intermediate value, as noted at each definition).
-/

/-- Bit extraction macro GB(x, s, n) from core/bitmath_func.hpp:
`(x >> s) & (((T)1U << n) - 1)`. -/
def GB (x s n : Nat) : Nat := (x >>> s) &&& ((1 <<< n) - 1)

/-- State of a `Packet` (src/network/core/packet.cpp).  `buffer` is the
`std::vector<byte>`, `pos` the read position, `limit` the maximum packet
size.  `has_quit` models `this->cs->HasClientQuit()` for an incoming packet:
the one bit of `NetworkSocketHandler` state the packet code consults, and the
bit that `NetworkSocketHandler::CloseConnection` (base class, not under src/)
sets when the packet layer closes the connection on a bad read. -/
structure Packet where
  buffer : List Nat
  pos : Nat
  limit : Nat
  has_quit : Bool
deriving Repr, DecidableEq

namespace Packet

/-- Packet::Size: `return this->buffer.size();`. -/
def Size (p : Packet) : Nat := p.buffer.length

/-- Packet::CanWriteToPacket: `return this->Size() + bytes_to_write < this->limit;`. -/
def CanWriteToPacket (p : Packet) (bytes_to_write : Nat) : Bool :=
  p.Size + bytes_to_write < p.limit

/-- Packet::Send_uint8: `this->buffer.emplace_back(data);` (data is a uint8). -/
def Send_uint8 (p : Packet) (data : Nat) : Packet :=
  { p with buffer := p.buffer ++ [data % 256] }

/-- Packet::Send_bool: `this->Send_uint8(data ? 1 : 0);`. -/
def Send_bool (p : Packet) (data : Bool) : Packet :=
  p.Send_uint8 (if data then 1 else 0)

/-- Packet::Send_uint16: appends GB(data, 0, 8), GB(data, 8, 8). -/
def Send_uint16 (p : Packet) (data : Nat) : Packet :=
  { p with buffer := p.buffer ++ [GB data 0 8, GB data 8 8] }

/-- Packet::Send_uint32: appends GB(data, 0, 8) .. GB(data, 24, 8). -/
def Send_uint32 (p : Packet) (data : Nat) : Packet :=
  { p with buffer := p.buffer ++ [GB data 0 8, GB data 8 8, GB data 16 8, GB data 24 8] }

/-- Packet::Send_uint64: appends GB(data, 0, 8) .. GB(data, 56, 8). -/
def Send_uint64 (p : Packet) (data : Nat) : Packet :=
  { p with buffer := p.buffer ++
      [GB data 0 8, GB data 8 8, GB data 16 8, GB data 24 8,
       GB data 32 8, GB data 40 8, GB data 48 8, GB data 56 8] }

/-- Packet::Send_string: `while (this->buffer.emplace_back(*data++) != '\0') {}`.
`data` models the characters of the NUL-terminated C string, which by the
C-string contract contain no NUL; the loop therefore appends exactly those
bytes followed by the terminator. -/
def Send_string (p : Packet) (data : List Nat) : Packet :=
  { p with buffer := p.buffer ++ data ++ [0] }

/-- Packet::Send_binary: `this->buffer.insert(this->buffer.end(), data, data + size);`. -/
def Send_binary (p : Packet) (data : List Nat) : Packet :=
  { p with buffer := p.buffer ++ data }

/-- Packet::Send_bytes: copies `min(end - begin, limit - Size())` bytes and
returns the amount. -/
def Send_bytes (p : Packet) (data : List Nat) : Nat × Packet :=
  let amount := min data.length (p.limit - p.Size)
  (amount, { p with buffer := p.buffer ++ data.take amount })

/-- Packet::ResetState: clears the buffer then Send_uint16(0), Send_uint8(type). -/
def ResetState (p : Packet) (type : Nat) : Packet :=
  Send_uint8 (Send_uint16 { p with buffer := [], has_quit := false } 0) type

/-- Packet(PacketType type, size_t limit) constructor: pos(0), limit(limit),
cs(nullptr), then ResetState(type). -/
def mkSend (type limit : Nat) : Packet :=
  ResetState { buffer := [], pos := 0, limit := limit, has_quit := false } type

/-- Packet(NetworkSocketHandler *cs, size_t limit, size_t initial_read_size)
constructor: pos(0), limit(limit), `buffer.resize(initial_read_size)`
(value-initialised bytes). -/
def mkRecv (limit initial_read_size : Nat) : Packet :=
  { buffer := List.replicate initial_read_size 0, pos := 0, limit := limit, has_quit := false }

/-- Packet::PrepareToSend: `buffer[0] = GB(Size(), 0, 8); buffer[1] = GB(Size(), 8, 8);
pos = 0;` (shrink_to_fit has no observable effect on contents). -/
def PrepareToSend (p : Packet) : Packet :=
  { p with buffer := (p.buffer.set 0 (GB p.Size 0 8)).set 1 (GB p.Size 8 8), pos := 0 }

/-- Packet::CanReadFromPacket: fails when the client has quit; fails (and, when
`close_connection` is set, closes the connection) when `pos + bytes_to_read`
overruns `Size()`.  Returns the answer together with the possibly-updated
connection state. -/
def CanReadFromPacket (p : Packet) (bytes_to_read : Nat) (close_connection : Bool) :
    Bool × Packet :=
  if p.has_quit then (false, p)
  else if p.pos + bytes_to_read > p.Size then
    (false, if close_connection then { p with has_quit := true } else p)
  else (true, p)

/-- Packet::ReadRawPacketSize: `(size_t)buffer[0] + ((size_t)buffer[1] << 8)`. -/
def ReadRawPacketSize (p : Packet) : Nat :=
  p.buffer.getD 0 0 + ((p.buffer.getD 1 0) <<< 8)

/-- std::vector::resize semantics: truncate or pad with value-initialised
(zero) bytes to exactly `n` elements. -/
def listResize (l : List Nat) (n : Nat) : List Nat :=
  l.take n ++ List.replicate (n - l.length) 0

/-- Packet::ParsePacketSize: decodes the little-endian size from bytes 0 and 1;
fails when `size < sizeof(PacketSize) + sizeof(PacketType)` (= 3) or
`size > limit`; on success resizes the buffer to `size` and sets
`pos = sizeof(PacketSize)` (= 2). -/
def ParsePacketSize (p : Packet) : Bool × Packet :=
  let size := p.buffer.getD 0 0 + ((p.buffer.getD 1 0) <<< 8)
  if size < 3 ∨ size > p.limit then (false, p)
  else (true, { p with buffer := listResize p.buffer size, pos := 2 })

/-- Packet::PrepareToRead: `this->pos = sizeof(PacketSize);`. -/
def PrepareToRead (p : Packet) : Packet := { p with pos := 2 }

/-- Packet::Recv_uint8: on a failed bounds check returns 0, otherwise reads one
byte and advances. -/
def Recv_uint8 (p : Packet) : Nat × Packet :=
  match p.CanReadFromPacket 1 true with
  | (false, p') => (0, p')
  | (true, p') => (p'.buffer.getD p'.pos 0, { p' with pos := p'.pos + 1 })

/-- Packet::Recv_bool: `return this->Recv_uint8() != 0;`. -/
def Recv_bool (p : Packet) : Bool × Packet :=
  match p.Recv_uint8 with
  | (n, p') => (n ≠ 0, p')

/-- Packet::Recv_uint16: two bytes, least significant first. -/
def Recv_uint16 (p : Packet) : Nat × Packet :=
  match p.CanReadFromPacket 2 true with
  | (false, p') => (0, p')
  | (true, p') =>
    (p'.buffer.getD p'.pos 0 + ((p'.buffer.getD (p'.pos + 1) 0) <<< 8),
     { p' with pos := p'.pos + 2 })

/-- Packet::Recv_uint32: four bytes, least significant first. -/
def Recv_uint32 (p : Packet) : Nat × Packet :=
  match p.CanReadFromPacket 4 true with
  | (false, p') => (0, p')
  | (true, p') =>
    (p'.buffer.getD p'.pos 0 + ((p'.buffer.getD (p'.pos + 1) 0) <<< 8) +
     ((p'.buffer.getD (p'.pos + 2) 0) <<< 16) + ((p'.buffer.getD (p'.pos + 3) 0) <<< 24),
     { p' with pos := p'.pos + 4 })

/-- Packet::Recv_uint64: eight bytes, least significant first. -/
def Recv_uint64 (p : Packet) : Nat × Packet :=
  match p.CanReadFromPacket 8 true with
  | (false, p') => (0, p')
  | (true, p') =>
    (p'.buffer.getD p'.pos 0 + ((p'.buffer.getD (p'.pos + 1) 0) <<< 8) +
     ((p'.buffer.getD (p'.pos + 2) 0) <<< 16) + ((p'.buffer.getD (p'.pos + 3) 0) <<< 24) +
     ((p'.buffer.getD (p'.pos + 4) 0) <<< 32) + ((p'.buffer.getD (p'.pos + 5) 0) <<< 40) +
     ((p'.buffer.getD (p'.pos + 6) 0) <<< 48) + ((p'.buffer.getD (p'.pos + 7) 0) <<< 56),
     { p' with pos := p'.pos + 8 })

/-- Packet::Recv_binary(char*, size_t): bounds-checked block copy; returns the
bytes copied (empty on failure) with the updated packet. -/
def Recv_binary (p : Packet) (size : Nat) : List Nat × Packet :=
  match p.CanReadFromPacket size true with
  | (false, p') => ([], p')
  | (true, p') => ((p'.buffer.drop p'.pos).take size, { p' with pos := p'.pos + size })

end Packet

/-- The value `--size` takes when a size_t `size` of 0 is decremented
(64-bit wrap-around), as exercised by Recv_string's copy loop. -/
def sizeTMax : Nat := 2 ^ 64 - 1

/-- Copy loop of Packet::Recv_string(char*):
`while (--size > 0 && pos < this->Size() && (*buffer++ = this->buffer[pos++]) != '\0') {}`,
expressed structurally over the buffer suffix starting at `pos` (so
`pos < Size()` becomes "the suffix is nonempty" and `buffer[pos]` its head).
Returns (bytes written to the destination, final value of the local `size`,
final local `pos`).  `--size` on a size_t wraps at 0, modelled by `sizeTMax`. -/
def recvStringLoopAux : List Nat → Nat → Nat → List Nat → (List Nat × Nat × Nat)
  | remaining, size, pos, acc =>
    let size' := if size = 0 then sizeTMax else size - 1
    if size' = 0 then (acc, size', pos)
    else
      match remaining with
      | [] => (acc, size', pos)
      | b :: rem =>
        if b = 0 then (acc ++ [b], size', pos + 1)
        else recvStringLoopAux rem size' (pos + 1) (acc ++ [b])

/-- The copy loop started at index `pos` of `src`. -/
def recvStringLoop (src : List Nat) (size pos : Nat) (acc : List Nat) :
    List Nat × Nat × Nat :=
  recvStringLoopAux (src.drop pos) size pos acc

/-- Resynchronisation loop of Packet::Recv_string(char*):
`while (pos < this->Size() && this->buffer[pos] != '\0') pos++;`, expressed
structurally over the buffer suffix starting at `pos`. -/
def skipToNulAux : List Nat → Nat → Nat
  | [], pos => pos
  | b :: rem, pos => if b = 0 then pos else skipToNulAux rem (pos + 1)

/-- The resynchronisation loop started at index `pos` of `src`. -/
def skipToNul (src : List Nat) (pos : Nat) : Nat :=
  skipToNulAux (src.drop pos) pos

/-- Modelled from the spec: the string-validation step (str_validate, in
string.cpp which is not under src/) that "removes control characters or
invalid encoding" from a decoded string; on printable-ASCII input it is the
identity. -/
def str_validate (s : List Nat) : List Nat :=
  s.filter (fun b => decide (0x20 ≤ b ∧ b < 0x7F))

namespace Packet

/-- Packet::Recv_string(char *buffer, size_t size, ...): returns the bytes
written into the destination buffer (empty when the client already quit)
together with the updated packet.  After the copy loop, when the destination
was exhausted (`size == 0`) or the source ran out (`pos == Size()`), a NUL is
written and the cursor is resynchronised past the source's terminator.
The final str_validate sanitises the destination C string in place. -/
def Recv_string_buf (p : Packet) (size : Nat) : List Nat × Packet :=
  if p.has_quit then ([], p)
  else
    match recvStringLoop p.buffer size p.pos [] with
    | (written, size', pos) =>
      if size' = 0 ∨ pos = p.Size then
        (str_validate ((written ++ [0]).takeWhile (· ≠ 0)) ++ [0],
         { p with pos := skipToNul p.buffer pos + 1 })
      else
        (str_validate (written.takeWhile (· ≠ 0)) ++ [0], { p with pos := pos })

/-- ttd_strnlen(str, maxlen): length of the string, scanning at most `maxlen`
bytes. -/
def ttd_strnlen (l : List Nat) (maxlen : Nat) : Nat :=
  ((l.take maxlen).takeWhile (· ≠ 0)).length

/-- Packet::Recv_string(std::string&):
`length = ttd_strnlen(buffer.data() + pos, Size() - pos - 1); assign(..., length);
pos += length + 1;` followed by str_validate_inplace.  The size_t subtraction
`Size() - pos - 1` is modelled with truncated Nat subtraction; the two agree
whenever `pos < Size()` (for `pos ≥ Size()` the C++ underflows and reads out
of bounds, so all theorems about this operation assume `pos < Size()`). -/
def Recv_string_std (p : Packet) : List Nat × Packet :=
  if p.has_quit then ([], p)
  else
    let length := ttd_strnlen (p.buffer.drop p.pos) (p.Size - p.pos - 1)
    (str_validate ((p.buffer.drop p.pos).take length), { p with pos := p.pos + length + 1 })

end Packet

/-- One byte from a saveload stream (LoadBuffer::ReadByte); `none` models the
"Unexpected end of stream" fault.  Elements of the stream are bytes. -/
def readByte : List Nat → Option (Nat × List Nat)
  | [] => none
  | b :: s => some (b % 256, s)

/-- LoadBuffer::ReadGamma (src/saveload/saveload_buffer.cpp).  The C++ works in
`uint` (32-bit); every intermediate value stays below 2^28 so Nat arithmetic
is exact.  `i &= ~0x80` etc. are the 32-bit maskings written out; `none`
models SlErrorCorrupt ("Unsupported gamma" for a first byte with the top four
bits set, or end of stream). -/
def ReadGamma (s0 : List Nat) : Option (Nat × List Nat) := do
  let (i, s) ← readByte s0
  if i.testBit 7 then
    let i := i &&& 0xFFFFFF7F
    if i.testBit 6 then
      let i := i &&& 0xFFFFFFBF
      if i.testBit 5 then
        let i := i &&& 0xFFFFFFDF
        if i.testBit 4 then
          none
        else do
          let (b, s) ← readByte s
          let i := (i <<< 8) ||| b
          let (b, s) ← readByte s
          let i := (i <<< 8) ||| b
          let (b, s) ← readByte s
          pure ((i <<< 8) ||| b, s)
      else do
        let (b, s) ← readByte s
        let i := (i <<< 8) ||| b
        let (b, s) ← readByte s
        pure ((i <<< 8) ||| b, s)
    else do
      let (b, s) ← readByte s
      pure ((i <<< 8) ||| b, s)
  else
    pure (i, s)

/-- SaveDumper::WriteGamma (src/saveload/saveload_buffer.cpp): the emitted
bytes, with the trailing `WriteByte((byte)i)` appended to each branch; `none`
models the `assert(i < (1 << 28))` firing for an unsupported value. -/
def WriteGamma (i : Nat) : Option (List Nat) :=
  if i ≥ 1 <<< 7 then
    if i ≥ 1 <<< 14 then
      if i ≥ 1 <<< 21 then
        if i < 1 <<< 28 then
          some [(0xE0 ||| (i >>> 24)) % 256, (i >>> 16) % 256, (i >>> 8) % 256, i % 256]
        else none
      else
        some [(0xC0 ||| (i >>> 16)) % 256, (i >>> 8) % 256, i % 256]
    else
      some [(0x80 ||| (i >>> 8)) % 256, i % 256]
  else
    some [i % 256]

/-- Result of one non-blocking `send()` call on the socket
(NetworkClientSocket::Send_Packets, src/network/core/tcp.cpp): the OS accepts
`accept n` bytes of the requested range (`accept 0` means the peer has left),
reports would-block, or reports another error. -/
inductive SendRes where
  | wouldblock
  | err
  | accept (n : Nat)
deriving Repr, DecidableEq

/-- Per-connection sender state: the FIFO `packet_queue` (each entry a prepared
packet buffer with its send cursor `pos`), the transcript of bytes handed to
`send()` so far (ghost state recording what was transmitted), and whether the
connection has been closed. -/
structure Conn where
  queue : List (List Nat × Nat)
  sent : List Nat
  closed : Bool
deriving Repr, DecidableEq

/-- NetworkClientSocket::Send_Packet: PrepareToSend has set the packet's `pos`
to 0; the packet is appended at the tail of `packet_queue` (the linked-list
walk to the last element). -/
def Send_Packet (c : Conn) (buf : List Nat) : Conn :=
  { c with queue := c.queue ++ [(buf, 0)] }

/-- The `while (p != NULL)` loop of NetworkClientSocket::Send_Packets.  Each
iteration issues `send(sock, p->buffer + p->pos, p->size - p->pos, 0)` and
consumes one socket result: would-block returns (keep the queue), an error or
a zero result closes the connection, and an `accept n` advances `p->pos` by
`min n` (the OS never accepts more than requested) `(size - pos)`; a fully
sent packet is popped and the loop continues.  Returns the new queue, the
extended transcript, the closed flag and the unconsumed socket results. -/
def sendLoop : List (List Nat × Nat) → List Nat → List SendRes →
    (List (List Nat × Nat) × List Nat × Bool × List SendRes)
  | [], sent, oracle => ([], sent, false, oracle)
  | (buf, pos) :: rest, sent, [] => ((buf, pos) :: rest, sent, false, [])
  | (buf, pos) :: rest, sent, r :: oracle =>
    match r with
    | .wouldblock => ((buf, pos) :: rest, sent, false, oracle)
    | .err => ((buf, pos) :: rest, sent, true, oracle)
    | .accept n =>
      if n = 0 then ((buf, pos) :: rest, sent, true, oracle)
      else
        let m := min n (buf.length - pos)
        if pos + m = buf.length then sendLoop rest (sent ++ (buf.drop pos).take m) oracle
        else ((buf, pos + m) :: rest, sent ++ (buf.drop pos).take m, false, oracle)

/-- NetworkClientSocket::Send_Packets: does nothing on a closed (not writable /
not connected) socket, otherwise runs the send loop. -/
def Send_Packets (c : Conn) (oracle : List SendRes) : Conn × List SendRes :=
  if c.closed then (c, oracle)
  else
    match sendLoop c.queue c.sent oracle with
    | (q, sent, closed, oracle') => ({ queue := q, sent := sent, closed := closed }, oracle')

/-- Repeated Send_Packets calls (one per event-loop tick), threading the
remaining socket results through. -/
def runSendPackets : Nat → Conn → List SendRes → Conn
  | 0, c, _ => c
  | fuel + 1, c, oracle =>
    match Send_Packets c oracle with
    | (c', oracle') => runSendPackets fuel c' oracle'

/-- Modelled from the spec: the receive path that consumes ParsePacketSize
(§4.3, §8.5: a declared length below 3 or above the configured maximum is
rejected by ParsePacketSize and the connection is closed; the packet is not
delivered).  The framer in src/network/core/tcp.cpp is an older revision that
reads the length directly, so the glue calling ParsePacketSize is not under
src/.  Returns (delivered packet if any, whether the connection was closed). -/
def recvFrame (p : Packet) : Option Packet × Bool :=
  match p.ParsePacketSize with
  | (true, p') => (some p', false)
  | (false, _) => (none, true)

/-! ### Helper lemmas -/

theorem getD_append_add (xs ys : List Nat) (i d : Nat) :
    (xs ++ ys).getD (xs.length + i) d = ys.getD i d := by
  simp [List.getD_eq_getElem?_getD, List.getElem?_append_right (Nat.le_add_right _ _)]

theorem length_listResize (l : List Nat) (n : Nat) : (Packet.listResize l n).length = n := by
  simp [Packet.listResize]
  omega

theorem GB_eq_div_mod (x s n : Nat) : GB x s n = x / 2 ^ s % 2 ^ n := by
  have h1 : (1 <<< n) = 2 ^ n := by simp [Nat.shiftLeft_eq]
  simp [GB, h1, Nat.and_pow_two_sub_one_eq_mod, Nat.shiftRight_eq_div_pow]

/-! ### C5: write precondition -/

/-- Claim C5 (as stated) is false: a write that brings the total size to
exactly `size_limit` is rejected.  Concretely, a freshly constructed packet
with limit 4 holds 3 bytes, and writing 1 more byte (total exactly the limit)
fails CanWriteToPacket. -/
theorem C5_counterexample :
    (Packet.mkSend 7 4).Size + 1 ≤ (Packet.mkSend 7 4).limit ∧
    (Packet.mkSend 7 4).CanWriteToPacket 1 = false := by decide

/-- Claim C5 (amended): `CanWriteToPacket(n)` returns true iff
`Size() + n < limit` (strictly); in particular a write that would bring the
total size to exactly `size_limit` is rejected. -/
theorem C5_can_write_iff (p : Packet) (n : Nat) :
    (p.CanWriteToPacket n = true ↔ p.Size + n < p.limit) ∧
    (p.Size + n = p.limit → p.CanWriteToPacket n = false) := by
  constructor
  · simp [Packet.CanWriteToPacket]
  · intro h
    simp [Packet.CanWriteToPacket, h]

/-- Witness: CanWriteToPacket permits a write strictly below the limit. -/
theorem C5_can_write_iff_witness :
    (Packet.mkSend 7 10).CanWriteToPacket 2 = true ∧
    (Packet.mkSend 7 4).CanWriteToPacket 1 = false :=
  ⟨(C5_can_write_iff (Packet.mkSend 7 10) 2).1.mpr (by decide),
   (C5_can_write_iff (Packet.mkSend 7 4) 1).2 (by decide)⟩

/-! ### C6: ParsePacketSize -/

/-- Claim C6 (as stated) is false: on success ParsePacketSize sets the read
cursor to 2 (just past the 2-byte length field), not 3.  Concretely, a packet
declaring length 4 parses successfully with the cursor at 2. -/
theorem C6_counterexample :
    (Packet.ParsePacketSize ⟨[4, 0, 7, 9], 0, 100, false⟩).1 = true ∧
    (Packet.ParsePacketSize ⟨[4, 0, 7, 9], 0, 100, false⟩).2.pos ≠ 3 := by decide

/-- Claim C6 (amended): ParsePacketSize succeeds iff the little-endian decode
L of the first two bytes satisfies 3 ≤ L ≤ limit; on success it resizes the
storage to exactly L bytes and sets the read cursor to offset 2 (just past
the 2-byte length field; the 1-byte type field is consumed separately); on
failure it reports failure and leaves the packet, in particular the storage
size, unchanged. -/
theorem C6_parse_packet_size (p : Packet) :
    ((p.ParsePacketSize).1 = true ↔
      3 ≤ p.buffer.getD 0 0 + ((p.buffer.getD 1 0) <<< 8) ∧
      p.buffer.getD 0 0 + ((p.buffer.getD 1 0) <<< 8) ≤ p.limit) ∧
    ((p.ParsePacketSize).1 = true →
      (p.ParsePacketSize).2.buffer.length = p.buffer.getD 0 0 + ((p.buffer.getD 1 0) <<< 8) ∧
      (p.ParsePacketSize).2.pos = 2) ∧
    ((p.ParsePacketSize).1 = false → (p.ParsePacketSize).2 = p) := by
  by_cases h : p.buffer.getD 0 0 + ((p.buffer.getD 1 0) <<< 8) < 3 ∨
      p.buffer.getD 0 0 + ((p.buffer.getD 1 0) <<< 8) > p.limit
  · have hres : p.ParsePacketSize = (false, p) := by
      unfold Packet.ParsePacketSize
      rw [if_pos h]
    rw [hres]
    exact ⟨⟨fun hfalse => by simp at hfalse, fun hc => absurd hc (by omega)⟩,
      fun htrue => by simp at htrue, fun _ => rfl⟩
  · have hres : p.ParsePacketSize =
        (true,
         { p with
            buffer := Packet.listResize p.buffer (p.buffer.getD 0 0 + ((p.buffer.getD 1 0) <<< 8)),
            pos := 2 }) := by
      unfold Packet.ParsePacketSize
      rw [if_neg h]
    rw [hres]
    exact ⟨⟨fun _ => by omega, fun _ => rfl⟩,
      fun _ => ⟨length_listResize _ _, rfl⟩, fun hfalse => by simp at hfalse⟩

/-- Witness: a concrete successful parse resizes to the declared length 4 and
sets the cursor to 2, and a concrete undersized declaration fails. -/
theorem C6_parse_packet_size_witness :
    (Packet.ParsePacketSize ⟨[4, 0, 7, 9, 9], 0, 100, false⟩).2.buffer.length = 4 ∧
    (Packet.ParsePacketSize ⟨[4, 0, 7, 9, 9], 0, 100, false⟩).2.pos = 2 ∧
    (Packet.ParsePacketSize ⟨[2, 0, 7, 9], 0, 100, false⟩).1 = false := by
  refine ⟨?_, ?_, ?_⟩
  · exact ((C6_parse_packet_size ⟨[4, 0, 7, 9, 9], 0, 100, false⟩).2.1 (by decide)).1.trans
      (by decide)
  · exact ((C6_parse_packet_size ⟨[4, 0, 7, 9, 9], 0, 100, false⟩).2.1 (by decide)).2
  · have h := (C6_parse_packet_size ⟨[2, 0, 7, 9], 0, 100, false⟩).1
    by_contra hc
    have := h.mp (by revert hc; cases (Packet.ParsePacketSize ⟨[2, 0, 7, 9], 0, 100, false⟩).1 <;> simp)
    revert this
    decide

/-! ### Read bounds-check helpers -/

theorem canRead_fail (p : Packet) (n : Nat)
    (h : p.has_quit = true ∨ p.pos + n > p.Size) :
    p.CanReadFromPacket n true = (false, if p.has_quit then p else { p with has_quit := true }) := by
  unfold Packet.CanReadFromPacket
  by_cases hq : p.has_quit
  · simp [hq]
  · rcases h with h | h
    · exact absurd h (by simp [hq])
    · simp [hq, if_pos h]

theorem canRead_ok (p : Packet) (n : Nat) (hq : p.has_quit = false)
    (hle : p.pos + n ≤ p.Size) :
    p.CanReadFromPacket n true = (true, p) := by
  unfold Packet.CanReadFromPacket
  simp [hq, Nat.not_lt.mpr hle]

theorem recv_uint8_ok (p : Packet) (hq : p.has_quit = false) (hle : p.pos + 1 ≤ p.Size) :
    p.Recv_uint8 = (p.buffer.getD p.pos 0, { p with pos := p.pos + 1 }) := by
  unfold Packet.Recv_uint8
  rw [canRead_ok p 1 hq hle]

theorem recv_uint16_ok (p : Packet) (hq : p.has_quit = false) (hle : p.pos + 2 ≤ p.Size) :
    p.Recv_uint16 = (p.buffer.getD p.pos 0 + ((p.buffer.getD (p.pos + 1) 0) <<< 8),
      { p with pos := p.pos + 2 }) := by
  unfold Packet.Recv_uint16
  rw [canRead_ok p 2 hq hle]

theorem recv_uint32_ok (p : Packet) (hq : p.has_quit = false) (hle : p.pos + 4 ≤ p.Size) :
    p.Recv_uint32 = (p.buffer.getD p.pos 0 + ((p.buffer.getD (p.pos + 1) 0) <<< 8) +
      ((p.buffer.getD (p.pos + 2) 0) <<< 16) + ((p.buffer.getD (p.pos + 3) 0) <<< 24),
      { p with pos := p.pos + 4 }) := by
  unfold Packet.Recv_uint32
  rw [canRead_ok p 4 hq hle]

theorem recv_uint64_ok (p : Packet) (hq : p.has_quit = false) (hle : p.pos + 8 ≤ p.Size) :
    p.Recv_uint64 = (p.buffer.getD p.pos 0 + ((p.buffer.getD (p.pos + 1) 0) <<< 8) +
      ((p.buffer.getD (p.pos + 2) 0) <<< 16) + ((p.buffer.getD (p.pos + 3) 0) <<< 24) +
      ((p.buffer.getD (p.pos + 4) 0) <<< 32) + ((p.buffer.getD (p.pos + 5) 0) <<< 40) +
      ((p.buffer.getD (p.pos + 6) 0) <<< 48) + ((p.buffer.getD (p.pos + 7) 0) <<< 56),
      { p with pos := p.pos + 8 }) := by
  unfold Packet.Recv_uint64
  rw [canRead_ok p 8 hq hle]

theorem recv_uint8_fail (p : Packet) (h : p.has_quit = true ∨ p.pos + 1 > p.Size) :
    p.Recv_uint8 = (0, if p.has_quit then p else { p with has_quit := true }) := by
  unfold Packet.Recv_uint8
  rw [canRead_fail p 1 h]

theorem recv_uint16_fail (p : Packet) (h : p.has_quit = true ∨ p.pos + 2 > p.Size) :
    p.Recv_uint16 = (0, if p.has_quit then p else { p with has_quit := true }) := by
  unfold Packet.Recv_uint16
  rw [canRead_fail p 2 h]

theorem recv_uint32_fail (p : Packet) (h : p.has_quit = true ∨ p.pos + 4 > p.Size) :
    p.Recv_uint32 = (0, if p.has_quit then p else { p with has_quit := true }) := by
  unfold Packet.Recv_uint32
  rw [canRead_fail p 4 h]

theorem recv_uint64_fail (p : Packet) (h : p.has_quit = true ∨ p.pos + 8 > p.Size) :
    p.Recv_uint64 = (0, if p.has_quit then p else { p with has_quit := true }) := by
  unfold Packet.Recv_uint64
  rw [canRead_fail p 8 h]

theorem recv_binary_fail (p : Packet) (n : Nat) (h : p.has_quit = true ∨ p.pos + n > p.Size) :
    p.Recv_binary n = ([], if p.has_quit then p else { p with has_quit := true }) := by
  unfold Packet.Recv_binary
  rw [canRead_fail p n h]

theorem fail_state_pos_buffer (p : Packet) :
    (if p.has_quit then p else { p with has_quit := true }).pos = p.pos ∧
    (if p.has_quit then p else { p with has_quit := true }).buffer = p.buffer := by
  by_cases hq : p.has_quit <;> simp [hq]

/-! ### C10: failed fixed-width reads are all-or-nothing -/

/-- Claim C10: for every fixed-width read (Recv_bool, Recv_uint8/16/32/64,
Recv_binary), when the bounds check fails — the owning connection is already
marked as quit, or advancing the read cursor by the requested width would
exceed the declared size — the operation returns the zero/default value and
leaves the packet's buffer contents and read cursor exactly as they were
before the call: no partial consumption ever occurs. -/
theorem C10_reads_all_or_nothing (p : Packet) :
    (p.has_quit = true ∨ p.pos + 1 > p.Size →
      (p.Recv_uint8.1 = 0 ∧ p.Recv_uint8.2.pos = p.pos ∧ p.Recv_uint8.2.buffer = p.buffer) ∧
      (p.Recv_bool.1 = false ∧ p.Recv_bool.2.pos = p.pos ∧ p.Recv_bool.2.buffer = p.buffer)) ∧
    (p.has_quit = true ∨ p.pos + 2 > p.Size →
      p.Recv_uint16.1 = 0 ∧ p.Recv_uint16.2.pos = p.pos ∧ p.Recv_uint16.2.buffer = p.buffer) ∧
    (p.has_quit = true ∨ p.pos + 4 > p.Size →
      p.Recv_uint32.1 = 0 ∧ p.Recv_uint32.2.pos = p.pos ∧ p.Recv_uint32.2.buffer = p.buffer) ∧
    (p.has_quit = true ∨ p.pos + 8 > p.Size →
      p.Recv_uint64.1 = 0 ∧ p.Recv_uint64.2.pos = p.pos ∧ p.Recv_uint64.2.buffer = p.buffer) ∧
    (∀ n, p.has_quit = true ∨ p.pos + n > p.Size →
      (p.Recv_binary n).1 = [] ∧ (p.Recv_binary n).2.pos = p.pos ∧
      (p.Recv_binary n).2.buffer = p.buffer) := by
  obtain ⟨hpos, hbuf⟩ := fail_state_pos_buffer p
  refine ⟨fun h => ?_, fun h => ?_, fun h => ?_, fun h => ?_, fun n h => ?_⟩
  · rw [Packet.Recv_bool, recv_uint8_fail p h]
    exact ⟨⟨rfl, hpos, hbuf⟩, by simp, hpos, hbuf⟩
  · rw [recv_uint16_fail p h]
    exact ⟨rfl, hpos, hbuf⟩
  · rw [recv_uint32_fail p h]
    exact ⟨rfl, hpos, hbuf⟩
  · rw [recv_uint64_fail p h]
    exact ⟨rfl, hpos, hbuf⟩
  · rw [recv_binary_fail p n h]
    exact ⟨rfl, hpos, hbuf⟩

/-- Witness: a failed Recv_uint32 on a 4-byte packet whose cursor is at 2
returns 0 and leaves the cursor at 2 and the buffer intact. -/
theorem C10_reads_all_or_nothing_witness :
    (Packet.Recv_uint32 ⟨[4, 0, 7, 9], 2, 100, false⟩).1 = 0 ∧
    (Packet.Recv_uint32 ⟨[4, 0, 7, 9], 2, 100, false⟩).2.pos = 2 ∧
    (Packet.Recv_uint32 ⟨[4, 0, 7, 9], 2, 100, false⟩).2.buffer = [4, 0, 7, 9] :=
  (C10_reads_all_or_nothing ⟨[4, 0, 7, 9], 2, 100, false⟩).2.2.1 (by decide)

/-! ### C3: bounds enforcement -/

/-- Claim C3: a declared frame length below 3 or above the configured limit is
rejected by ParsePacketSize, the receive path does not deliver the packet and
the connection is closed; and every fixed-width read that would advance the
cursor past the declared size returns the zero value (closing the
connection), leaves the cursor and buffer untouched, and a read only ever
advances when the accessed range lies inside the buffer. -/
theorem C3_bounds_enforcement :
    (∀ p : Packet, p.buffer.getD 0 0 + ((p.buffer.getD 1 0) <<< 8) < 3 ∨
        p.buffer.getD 0 0 + ((p.buffer.getD 1 0) <<< 8) > p.limit →
      (p.ParsePacketSize).1 = false ∧ recvFrame p = (none, true)) ∧
    (∀ p : Packet, p.has_quit = false →
      (p.pos + 1 > p.Size → p.Recv_uint8 = (0, { p with has_quit := true })) ∧
      (p.pos + 2 > p.Size → p.Recv_uint16 = (0, { p with has_quit := true })) ∧
      (p.pos + 4 > p.Size → p.Recv_uint32 = (0, { p with has_quit := true })) ∧
      (p.pos + 8 > p.Size → p.Recv_uint64 = (0, { p with has_quit := true })) ∧
      (∀ n, p.pos + n > p.Size → p.Recv_binary n = ([], { p with has_quit := true }))) ∧
    (∀ p : Packet,
      ((p.Recv_uint8).2.pos ≠ p.pos → p.pos + 1 ≤ p.Size) ∧
      ((p.Recv_uint16).2.pos ≠ p.pos → p.pos + 2 ≤ p.Size) ∧
      ((p.Recv_uint32).2.pos ≠ p.pos → p.pos + 4 ≤ p.Size) ∧
      ((p.Recv_uint64).2.pos ≠ p.pos → p.pos + 8 ≤ p.Size)) := by
  refine ⟨fun p h => ?_, fun p hq => ?_, fun p => ?_⟩
  · have hfail : p.ParsePacketSize = (false, p) := by
      unfold Packet.ParsePacketSize
      rw [if_pos h]
    exact ⟨by rw [hfail], by rw [recvFrame, hfail]⟩
  · refine ⟨fun h => ?_, fun h => ?_, fun h => ?_, fun h => ?_, fun n h => ?_⟩
    · rw [recv_uint8_fail p (Or.inr h), hq]
      simp
    · rw [recv_uint16_fail p (Or.inr h), hq]
      simp
    · rw [recv_uint32_fail p (Or.inr h), hq]
      simp
    · rw [recv_uint64_fail p (Or.inr h), hq]
      simp
    · rw [recv_binary_fail p n (Or.inr h), hq]
      simp
  · refine ⟨fun hne => ?_, fun hne => ?_, fun hne => ?_, fun hne => ?_⟩ <;>
      · by_contra hgt
        by_cases hquit : p.has_quit
        · refine hne ?_
          first
          | (rw [recv_uint8_fail p (Or.inl hquit)]; exact (fail_state_pos_buffer p).1)
          | (rw [recv_uint16_fail p (Or.inl hquit)]; exact (fail_state_pos_buffer p).1)
          | (rw [recv_uint32_fail p (Or.inl hquit)]; exact (fail_state_pos_buffer p).1)
          | (rw [recv_uint64_fail p (Or.inl hquit)]; exact (fail_state_pos_buffer p).1)
        · refine hne ?_
          first
          | (rw [recv_uint8_fail p (Or.inr (Nat.lt_of_not_le hgt))]
             exact (fail_state_pos_buffer p).1)
          | (rw [recv_uint16_fail p (Or.inr (Nat.lt_of_not_le hgt))]
             exact (fail_state_pos_buffer p).1)
          | (rw [recv_uint32_fail p (Or.inr (Nat.lt_of_not_le hgt))]
             exact (fail_state_pos_buffer p).1)
          | (rw [recv_uint64_fail p (Or.inr (Nat.lt_of_not_le hgt))]
             exact (fail_state_pos_buffer p).1)

/-- Witness: the receive path refuses a frame declaring length 2 (closing the
connection), and a Recv_uint16 straddling the end of a 3-byte packet returns
0 with the connection closed. -/
theorem C3_bounds_enforcement_witness :
    recvFrame ⟨[2, 0, 7], 0, 100, false⟩ = (none, true) ∧
    Packet.Recv_uint16 ⟨[2, 0, 7], 2, 100, false⟩ = (0, ⟨[2, 0, 7], 2, 100, true⟩) :=
  ⟨(C3_bounds_enforcement.1 ⟨[2, 0, 7], 0, 100, false⟩ (by decide)).2,
   ((C3_bounds_enforcement.2.1 ⟨[2, 0, 7], 2, 100, false⟩ rfl).2.1 (by decide))⟩

/-! ### Bitwise helpers for the gamma codec -/

theorem or_and_split (a b m : Nat) : (a ||| b) &&& m = (a &&& m) ||| (b &&& m) := by
  apply Nat.eq_of_testBit_eq
  intro j
  simp only [Nat.testBit_and, Nat.testBit_or]
  cases a.testBit j <;> cases b.testBit j <;> cases m.testBit j <;> rfl

theorem and_mask_of_lt (x m k : Nat) (hx : x < 2 ^ k)
    (hm : ∀ j, j < k → m.testBit j = true) : x &&& m = x := by
  apply Nat.eq_of_testBit_eq
  intro j
  rw [Nat.testBit_and]
  by_cases hj : j < k
  · simp [hm j hj]
  · have hx' : x.testBit j = false :=
      Nat.testBit_lt_two_pow
        (lt_of_lt_of_le hx (Nat.pow_le_pow_right (by norm_num) (Nat.le_of_not_lt hj)))
    simp [hx']

theorem or_shiftLeft_add (a b k : Nat) (hb : b < 2 ^ k) : (a <<< k) ||| b = a * 2 ^ k + b := by
  rw [Nat.shiftLeft_eq, Nat.mul_comm a (2 ^ k)]
  exact (Nat.mul_add_lt_is_or hb a).symm

theorem ReadGamma_one (b : Nat) (hb : b < 128) (s : List Nat) :
    ReadGamma (b :: s) = some (b, s) := by
  have hmod : b % 256 = b := Nat.mod_eq_of_lt (by omega)
  have h7 : b.testBit 7 = false := Nat.testBit_lt_two_pow (by omega)
  simp [ReadGamma, readByte, hmod, h7]

theorem ReadGamma_two (x b1 : Nat) (hx : x < 2 ^ 6) (hb1 : b1 < 256) (s : List Nat) :
    ReadGamma ((0x80 ||| x) :: b1 :: s) = some ((x <<< 8) ||| b1, s) := by
  have hlt : (0x80 ||| x) < 2 ^ 8 := Nat.or_lt_two_pow (by norm_num) (by omega)
  have hmod : (0x80 ||| x) % 256 = 0x80 ||| x := Nat.mod_eq_of_lt (by omega)
  have h7 : (0x80 ||| x).testBit 7 = true := by
    simp +decide [Nat.testBit_or]
  have hmask : (0x80 ||| x) &&& 0xFFFFFF7F = x := by
    rw [or_and_split]
    have h1 : 0x80 &&& 0xFFFFFF7F = 0 := by decide
    have h2 : x &&& 0xFFFFFF7F = x :=
      and_mask_of_lt x _ 7 (by omega) (by decide)
    rw [h1, h2, Nat.zero_or]
  have h6 : x.testBit 6 = false := Nat.testBit_lt_two_pow hx
  have hb1m : b1 % 256 = b1 := Nat.mod_eq_of_lt hb1
  simp +decide [ReadGamma, readByte, hmod, h7, hmask, h6, hb1m]

theorem ReadGamma_three (x b1 b2 : Nat) (hx : x < 2 ^ 5) (hb1 : b1 < 256) (hb2 : b2 < 256)
    (s : List Nat) :
    ReadGamma ((0xC0 ||| x) :: b1 :: b2 :: s) =
      some ((((x <<< 8) ||| b1) <<< 8) ||| b2, s) := by
  have hlt : (0xC0 ||| x) < 2 ^ 8 := Nat.or_lt_two_pow (by norm_num) (by omega)
  have hmod : (0xC0 ||| x) % 256 = 0xC0 ||| x := Nat.mod_eq_of_lt (by omega)
  have h7 : (0xC0 ||| x).testBit 7 = true := by
    simp +decide [Nat.testBit_or]
  have hmask7 : (0xC0 ||| x) &&& 0xFFFFFF7F = 0x40 ||| x := by
    rw [or_and_split]
    have h1 : 0xC0 &&& 0xFFFFFF7F = 0x40 := by decide
    have h2 : x &&& 0xFFFFFF7F = x :=
      and_mask_of_lt x _ 7 (by omega) (by decide)
    rw [h1, h2]
  have h6 : (0x40 ||| x).testBit 6 = true := by
    simp +decide [Nat.testBit_or]
  have hmask6 : (0x40 ||| x) &&& 0xFFFFFFBF = x := by
    rw [or_and_split]
    have h1 : 0x40 &&& 0xFFFFFFBF = 0 := by decide
    have h2 : x &&& 0xFFFFFFBF = x :=
      and_mask_of_lt x _ 6 (by omega) (by decide)
    rw [h1, h2, Nat.zero_or]
  have h5 : x.testBit 5 = false := Nat.testBit_lt_two_pow hx
  have hb1m : b1 % 256 = b1 := Nat.mod_eq_of_lt hb1
  have hb2m : b2 % 256 = b2 := Nat.mod_eq_of_lt hb2
  simp +decide [ReadGamma, readByte, hmod, h7, hmask7, h6, hmask6, h5, hb1m, hb2m]

theorem ReadGamma_four (x b1 b2 b3 : Nat) (hx : x < 2 ^ 4) (hb1 : b1 < 256) (hb2 : b2 < 256)
    (hb3 : b3 < 256) (s : List Nat) :
    ReadGamma ((0xE0 ||| x) :: b1 :: b2 :: b3 :: s) =
      some ((((((x <<< 8) ||| b1) <<< 8) ||| b2) <<< 8) ||| b3, s) := by
  have hlt : (0xE0 ||| x) < 2 ^ 8 := Nat.or_lt_two_pow (by norm_num) (by omega)
  have hmod : (0xE0 ||| x) % 256 = 0xE0 ||| x := Nat.mod_eq_of_lt (by omega)
  have h7 : (0xE0 ||| x).testBit 7 = true := by
    simp +decide [Nat.testBit_or]
  have hmask7 : (0xE0 ||| x) &&& 0xFFFFFF7F = 0x60 ||| x := by
    rw [or_and_split]
    have h1 : 0xE0 &&& 0xFFFFFF7F = 0x60 := by decide
    have h2 : x &&& 0xFFFFFF7F = x :=
      and_mask_of_lt x _ 7 (by omega) (by decide)
    rw [h1, h2]
  have h6 : (0x60 ||| x).testBit 6 = true := by
    simp +decide [Nat.testBit_or]
  have hmask6 : (0x60 ||| x) &&& 0xFFFFFFBF = 0x20 ||| x := by
    rw [or_and_split]
    have h1 : 0x60 &&& 0xFFFFFFBF = 0x20 := by decide
    have h2 : x &&& 0xFFFFFFBF = x :=
      and_mask_of_lt x _ 6 (by omega) (by decide)
    rw [h1, h2]
  have h5 : (0x20 ||| x).testBit 5 = true := by
    simp +decide [Nat.testBit_or]
  have hmask5 : (0x20 ||| x) &&& 0xFFFFFFDF = x := by
    rw [or_and_split]
    have h1 : 0x20 &&& 0xFFFFFFDF = 0 := by decide
    have h2 : x &&& 0xFFFFFFDF = x :=
      and_mask_of_lt x _ 5 (by omega) (by decide)
    rw [h1, h2, Nat.zero_or]
  have h4 : x.testBit 4 = false := Nat.testBit_lt_two_pow hx
  have hb1m : b1 % 256 = b1 := Nat.mod_eq_of_lt hb1
  have hb2m : b2 % 256 = b2 := Nat.mod_eq_of_lt hb2
  have hb3m : b3 % 256 = b3 := Nat.mod_eq_of_lt hb3
  simp +decide [ReadGamma, readByte, hmod, h7, hmask7, h6, hmask6, h5, hmask5, h4, hb1m, hb2m, hb3m]

theorem ReadGamma_corrupt (b : Nat) (h1 : 0xF0 ≤ b) (h2 : b ≤ 0xFF) (s : List Nat) :
    ReadGamma (b :: s) = none := by
  interval_cases b <;> rfl

theorem WriteGamma_eq_one (v : Nat) (h : v < 2 ^ 7) : WriteGamma v = some [v] := by
  unfold WriteGamma
  rw [if_neg (by rw [Nat.shiftLeft_eq]; omega), Nat.mod_eq_of_lt (by omega)]

theorem WriteGamma_eq_two (v : Nat) (h1 : 2 ^ 7 ≤ v) (h2 : v < 2 ^ 14) :
    WriteGamma v = some [0x80 ||| (v >>> 8), v % 256] := by
  have hx : v >>> 8 < 2 ^ 6 := by
    rw [Nat.shiftRight_eq_div_pow]
    omega
  have hlt : (0x80 ||| (v >>> 8)) < 2 ^ 8 := Nat.or_lt_two_pow (by norm_num) (by omega)
  unfold WriteGamma
  rw [if_pos (by rw [Nat.shiftLeft_eq]; omega), if_neg (by rw [Nat.shiftLeft_eq]; omega)]
  rw [Nat.mod_eq_of_lt (show 0x80 ||| (v >>> 8) < 256 by omega)]

theorem WriteGamma_eq_three (v : Nat) (h1 : 2 ^ 14 ≤ v) (h2 : v < 2 ^ 21) :
    WriteGamma v = some [0xC0 ||| (v >>> 16), (v >>> 8) % 256, v % 256] := by
  have hx : v >>> 16 < 2 ^ 5 := by
    rw [Nat.shiftRight_eq_div_pow]
    omega
  have hlt : (0xC0 ||| (v >>> 16)) < 2 ^ 8 := Nat.or_lt_two_pow (by norm_num) (by omega)
  unfold WriteGamma
  rw [if_pos (by rw [Nat.shiftLeft_eq]; omega), if_pos (by rw [Nat.shiftLeft_eq]; omega),
    if_neg (by rw [Nat.shiftLeft_eq]; omega)]
  rw [Nat.mod_eq_of_lt (show 0xC0 ||| (v >>> 16) < 256 by omega)]

theorem WriteGamma_eq_four (v : Nat) (h1 : 2 ^ 21 ≤ v) (h2 : v < 2 ^ 28) :
    WriteGamma v = some [0xE0 ||| (v >>> 24), (v >>> 16) % 256, (v >>> 8) % 256, v % 256] := by
  have hx : v >>> 24 < 2 ^ 4 := by
    rw [Nat.shiftRight_eq_div_pow]
    omega
  have hlt : (0xE0 ||| (v >>> 24)) < 2 ^ 8 := Nat.or_lt_two_pow (by norm_num) (by omega)
  unfold WriteGamma
  rw [if_pos (by rw [Nat.shiftLeft_eq]; omega), if_pos (by rw [Nat.shiftLeft_eq]; omega),
    if_pos (by rw [Nat.shiftLeft_eq]; omega), if_pos (by rw [Nat.shiftLeft_eq]; omega)]
  rw [Nat.mod_eq_of_lt (show 0xE0 ||| (v >>> 24) < 256 by omega)]

theorem WriteGamma_none (v : Nat) (h : 2 ^ 28 ≤ v) : WriteGamma v = none := by
  unfold WriteGamma
  rw [if_pos (by rw [Nat.shiftLeft_eq]; omega), if_pos (by rw [Nat.shiftLeft_eq]; omega),
    if_pos (by rw [Nat.shiftLeft_eq]; omega), if_neg (by rw [Nat.shiftLeft_eq]; omega)]

/-! ### C2: gamma round-trip -/

/-- Claim C2: for every v in [0, 2^28 - 1], ReadGamma decodes the bytes
WriteGamma produces for v back to exactly v (with any following stream bytes
untouched); encoding a value of 2^28 or above reports the unsupported-value
fault; and decoding a stream whose first byte has all four high bits set
(0xF0..0xFF) reports the stream-corruption fault. -/
theorem C2_gamma_roundtrip :
    (∀ v : Nat, v < 2 ^ 28 → ∀ rest : List Nat,
      ∃ l, WriteGamma v = some l ∧ ReadGamma (l ++ rest) = some (v, rest)) ∧
    (∀ v : Nat, 2 ^ 28 ≤ v → WriteGamma v = none) ∧
    (∀ b : Nat, 0xF0 ≤ b → b ≤ 0xFF → ∀ s : List Nat, ReadGamma (b :: s) = none) := by
  refine ⟨fun v hv rest => ?_, WriteGamma_none, ReadGamma_corrupt⟩
  by_cases c1 : v < 2 ^ 7
  · refine ⟨[v], WriteGamma_eq_one v c1, ?_⟩
    exact ReadGamma_one v (by omega) rest
  · by_cases c2 : v < 2 ^ 14
    · refine ⟨_, WriteGamma_eq_two v (by omega) c2, ?_⟩
      have hx : v >>> 8 < 2 ^ 6 := by
        rw [Nat.shiftRight_eq_div_pow]
        omega
      rw [List.cons_append, List.cons_append, List.nil_append,
        ReadGamma_two (v >>> 8) (v % 256) hx (by omega) rest]
      have hval : (v >>> 8) <<< 8 ||| v % 256 = v := by
        rw [or_shiftLeft_add _ _ 8 (by omega), Nat.shiftRight_eq_div_pow]
        omega
      rw [hval]
    · by_cases c3 : v < 2 ^ 21
      · refine ⟨_, WriteGamma_eq_three v (by omega) c3, ?_⟩
        have hx : v >>> 16 < 2 ^ 5 := by
          rw [Nat.shiftRight_eq_div_pow]
          omega
        rw [List.cons_append, List.cons_append, List.cons_append, List.nil_append,
          ReadGamma_three (v >>> 16) ((v >>> 8) % 256) (v % 256) hx (by omega) (by omega) rest]
        have hval : ((v >>> 16) <<< 8 ||| (v >>> 8) % 256) <<< 8 ||| v % 256 = v := by
          rw [or_shiftLeft_add _ _ 8 (by omega), or_shiftLeft_add _ _ 8 (by omega),
            Nat.shiftRight_eq_div_pow, Nat.shiftRight_eq_div_pow]
          omega
        rw [hval]
      · refine ⟨_, WriteGamma_eq_four v (by omega) hv, ?_⟩
        have hx : v >>> 24 < 2 ^ 4 := by
          rw [Nat.shiftRight_eq_div_pow]
          omega
        rw [List.cons_append, List.cons_append, List.cons_append, List.cons_append,
          List.nil_append,
          ReadGamma_four (v >>> 24) ((v >>> 16) % 256) ((v >>> 8) % 256) (v % 256) hx
            (by omega) (by omega) (by omega) rest]
        have hval : (((v >>> 24) <<< 8 ||| (v >>> 16) % 256) <<< 8 ||| (v >>> 8) % 256) <<< 8 |||
            v % 256 = v := by
          rw [or_shiftLeft_add _ _ 8 (by omega), or_shiftLeft_add _ _ 8 (by omega),
            or_shiftLeft_add _ _ 8 (by omega), Nat.shiftRight_eq_div_pow,
            Nat.shiftRight_eq_div_pow, Nat.shiftRight_eq_div_pow]
          omega
        rw [hval]

/-- Witness: the encoding of 300 decodes back to 300, encoding 2^28 faults,
and a first byte of 0xF3 faults. -/
theorem C2_gamma_roundtrip_witness :
    (∃ l, WriteGamma 300 = some l ∧ ReadGamma (l ++ [9]) = some (300, [9])) ∧
    WriteGamma (2 ^ 28) = none ∧
    ReadGamma [0xF3, 1, 2] = none :=
  ⟨C2_gamma_roundtrip.1 300 (by norm_num) [9],
   C2_gamma_roundtrip.2.1 (2 ^ 28) (le_refl _),
   C2_gamma_roundtrip.2.2 0xF3 (by norm_num) (by norm_num) [1, 2]⟩

/-! ### Reading back appended values -/

/-- Reading state positioned at a given byte offset (round-trip plumbing: the
read cursor is placed at the position where a value was appended). -/
def Packet.withReadPos (p : Packet) (n : Nat) : Packet := { p with pos := n }

theorem getD_append_len (xs ys : List Nat) (d : Nat) :
    (xs ++ ys).getD xs.length d = ys.getD 0 d := by
  have h := getD_append_add xs ys 0 d
  rwa [Nat.add_zero] at h

theorem takeWhile_all {l : List Nat} {q : Nat → Bool} (h : ∀ a ∈ l, q a = true) :
    l.takeWhile q = l := by
  induction l with
  | nil => rfl
  | cons a t ih =>
    rw [List.takeWhile_cons_of_pos (h a (by simp))]
    rw [ih fun b hb => h b (by simp [hb])]

theorem recv_uint8_at (p : Packet) (hq : p.has_quit = false) (u tail : List Nat) (b0 : Nat)
    (hbuf : p.buffer = u ++ b0 :: tail) (hpos : p.pos = u.length) :
    p.Recv_uint8 = (b0, { p with pos := p.pos + 1 }) := by
  have hle : p.pos + 1 ≤ p.Size := by
    simp [Packet.Size, hbuf, hpos]
  rw [recv_uint8_ok p hq hle, hbuf, hpos, getD_append_len]
  rfl

theorem recv_uint16_at (p : Packet) (hq : p.has_quit = false) (u tail : List Nat) (b0 b1 : Nat)
    (hbuf : p.buffer = u ++ b0 :: b1 :: tail) (hpos : p.pos = u.length) :
    p.Recv_uint16 = (b0 + (b1 <<< 8), { p with pos := p.pos + 2 }) := by
  have hle : p.pos + 2 ≤ p.Size := by
    simp [Packet.Size, hbuf, hpos]
  rw [recv_uint16_ok p hq hle, hbuf, hpos, getD_append_len, getD_append_add]
  rfl

theorem recv_uint32_at (p : Packet) (hq : p.has_quit = false) (u tail : List Nat)
    (b0 b1 b2 b3 : Nat) (hbuf : p.buffer = u ++ b0 :: b1 :: b2 :: b3 :: tail)
    (hpos : p.pos = u.length) :
    p.Recv_uint32 = (b0 + (b1 <<< 8) + (b2 <<< 16) + (b3 <<< 24),
      { p with pos := p.pos + 4 }) := by
  have hle : p.pos + 4 ≤ p.Size := by
    simp [Packet.Size, hbuf, hpos]
  rw [recv_uint32_ok p hq hle, hbuf, hpos, getD_append_len, getD_append_add,
    getD_append_add, getD_append_add]
  rfl

theorem recv_uint64_at (p : Packet) (hq : p.has_quit = false) (u tail : List Nat)
    (b0 b1 b2 b3 b4 b5 b6 b7 : Nat)
    (hbuf : p.buffer = u ++ b0 :: b1 :: b2 :: b3 :: b4 :: b5 :: b6 :: b7 :: tail)
    (hpos : p.pos = u.length) :
    p.Recv_uint64 = (b0 + (b1 <<< 8) + (b2 <<< 16) + (b3 <<< 24) + (b4 <<< 32) +
      (b5 <<< 40) + (b6 <<< 48) + (b7 <<< 56), { p with pos := p.pos + 8 }) := by
  have hle : p.pos + 8 ≤ p.Size := by
    simp [Packet.Size, hbuf, hpos]
  rw [recv_uint64_ok p hq hle, hbuf, hpos, getD_append_len, getD_append_add,
    getD_append_add, getD_append_add, getD_append_add, getD_append_add,
    getD_append_add, getD_append_add]
  rfl

theorem recv_string_std_at (p : Packet) (hq : p.has_quit = false) (u s : List Nat)
    (hbuf : p.buffer = u ++ s ++ [0]) (hpos : p.pos = u.length)
    (hs : ∀ c ∈ s, c ≠ 0) :
    p.Recv_string_std = (str_validate s, { p with pos := p.pos + s.length + 1 }) := by
  unfold Packet.Recv_string_std
  rw [if_neg (by simp [hq])]
  have hdrop : p.buffer.drop p.pos = s ++ [0] := by
    rw [hbuf, hpos, List.append_assoc, List.drop_left]
  have hmaxlen : p.Size - p.pos - 1 = s.length := by
    simp [Packet.Size, hbuf, hpos]
  have hlen : Packet.ttd_strnlen (p.buffer.drop p.pos) (p.Size - p.pos - 1) = s.length := by
    rw [hdrop, hmaxlen, Packet.ttd_strnlen, List.take_left' (by simp),
      takeWhile_all (fun a ha => by simpa using hs a ha)]
  rw [hlen, hdrop, hpos]
  simp only [List.take_left' rfl]

/-! ### C1: primitive round-trip -/

/-- Claim C1: appending a supported primitive value (bool; uint8/16/32/64;
NUL-free printable string) to an outgoing packet with the corresponding
Send_T and reading it back from the same byte position with the corresponding
Recv_T yields exactly that value; the quantifiers include the boundary values
0 and max-of-type and, for strings, the empty string and all strings over the
printable ASCII range. -/
theorem C1_roundtrip (p : Packet) (hq : p.has_quit = false) :
    (∀ b : Bool, ((p.Send_bool b).withReadPos p.Size).Recv_bool.1 = b) ∧
    (∀ v : Nat, v < 2 ^ 8 → ((p.Send_uint8 v).withReadPos p.Size).Recv_uint8.1 = v) ∧
    (∀ v : Nat, v < 2 ^ 16 → ((p.Send_uint16 v).withReadPos p.Size).Recv_uint16.1 = v) ∧
    (∀ v : Nat, v < 2 ^ 32 → ((p.Send_uint32 v).withReadPos p.Size).Recv_uint32.1 = v) ∧
    (∀ v : Nat, v < 2 ^ 64 → ((p.Send_uint64 v).withReadPos p.Size).Recv_uint64.1 = v) ∧
    (∀ s : List Nat, (∀ c ∈ s, 0x20 ≤ c ∧ c ≤ 0x7E) →
      ((p.Send_string s).withReadPos p.Size).Recv_string_std.1 = s) := by
  refine ⟨fun b => ?_, fun v hv => ?_, fun v hv => ?_, fun v hv => ?_, fun v hv => ?_,
    fun s hs => ?_⟩
  · cases b
    · rw [Packet.Recv_bool, recv_uint8_at ((p.Send_bool false).withReadPos p.Size) hq p.buffer [] 0 rfl rfl]
      simp
    · rw [Packet.Recv_bool, recv_uint8_at ((p.Send_bool true).withReadPos p.Size) hq p.buffer [] 1 rfl rfl]
      simp
  · rw [recv_uint8_at ((p.Send_uint8 v).withReadPos p.Size) hq p.buffer [] (v % 256) rfl rfl]
    exact Nat.mod_eq_of_lt hv
  · rw [recv_uint16_at ((p.Send_uint16 v).withReadPos p.Size) hq p.buffer [] (GB v 0 8) (GB v 8 8) rfl rfl]
    show GB v 0 8 + (GB v 8 8 <<< 8) = v
    rw [GB_eq_div_mod, GB_eq_div_mod, Nat.shiftLeft_eq]
    omega
  · rw [recv_uint32_at ((p.Send_uint32 v).withReadPos p.Size) hq p.buffer []
      (GB v 0 8) (GB v 8 8) (GB v 16 8) (GB v 24 8) rfl rfl]
    show GB v 0 8 + (GB v 8 8 <<< 8) + (GB v 16 8 <<< 16) + (GB v 24 8 <<< 24) = v
    rw [GB_eq_div_mod, GB_eq_div_mod, GB_eq_div_mod, GB_eq_div_mod,
      Nat.shiftLeft_eq, Nat.shiftLeft_eq, Nat.shiftLeft_eq]
    omega
  · rw [recv_uint64_at ((p.Send_uint64 v).withReadPos p.Size) hq p.buffer []
      (GB v 0 8) (GB v 8 8) (GB v 16 8) (GB v 24 8)
      (GB v 32 8) (GB v 40 8) (GB v 48 8) (GB v 56 8) rfl rfl]
    show GB v 0 8 + (GB v 8 8 <<< 8) + (GB v 16 8 <<< 16) + (GB v 24 8 <<< 24) +
      (GB v 32 8 <<< 32) + (GB v 40 8 <<< 40) + (GB v 48 8 <<< 48) + (GB v 56 8 <<< 56) = v
    rw [GB_eq_div_mod, GB_eq_div_mod, GB_eq_div_mod, GB_eq_div_mod, GB_eq_div_mod,
      GB_eq_div_mod, GB_eq_div_mod, GB_eq_div_mod, Nat.shiftLeft_eq, Nat.shiftLeft_eq,
      Nat.shiftLeft_eq, Nat.shiftLeft_eq, Nat.shiftLeft_eq, Nat.shiftLeft_eq,
      Nat.shiftLeft_eq]
    omega
  · rw [recv_string_std_at ((p.Send_string s).withReadPos p.Size) hq p.buffer s rfl rfl
      (fun c hc => by have := hs c hc; omega)]
    show str_validate s = s
    exact List.filter_eq_self.mpr fun a ha => by
      have h2 := hs a ha
      simp only [decide_eq_true_eq]
      omega

/-- Witness: on a fresh outgoing packet, 0x12345678 and the string "HI" round
trip through Send/Recv at the append position. -/
theorem C1_roundtrip_witness :
    (((Packet.mkSend 1 100).Send_uint32 305419896).withReadPos
        (Packet.mkSend 1 100).Size).Recv_uint32.1 = 305419896 ∧
    (((Packet.mkSend 1 100).Send_string [72, 73]).withReadPos
        (Packet.mkSend 1 100).Size).Recv_string_std.1 = [72, 73] :=
  ⟨(C1_roundtrip (Packet.mkSend 1 100) rfl).2.2.2.1 305419896 (by norm_num),
   (C1_roundtrip (Packet.mkSend 1 100) rfl).2.2.2.2.2 [72, 73] (by decide)⟩

/-! ### Recv_string loop lemmas -/

theorem recvStringLoopAux_pos_le (remaining : List Nat) :
    ∀ size pos acc, (recvStringLoopAux remaining size pos acc).2.2 ≤ pos + remaining.length := by
  induction remaining with
  | nil =>
    intro size pos acc
    rw [recvStringLoopAux]
    by_cases h : (if size = 0 then sizeTMax else size - 1) = 0 <;> simp [h]
  | cons b rem ih =>
    intro size pos acc
    rw [recvStringLoopAux]
    by_cases h : (if size = 0 then sizeTMax else size - 1) = 0
    · simp [h]
    · by_cases hb : b = 0
      · simp [h, hb]
      · simp only [h, if_neg, hb, ite_false]
        have := ih (if size = 0 then sizeTMax else size - 1) (pos + 1) (acc ++ [b])
        simp only [List.length_cons]
        omega

theorem skipToNulAux_le (rem : List Nat) :
    ∀ pos, skipToNulAux rem pos ≤ pos + rem.length := by
  induction rem with
  | nil => intro pos; simp [skipToNulAux]
  | cons b r ih =>
    intro pos
    rw [skipToNulAux]
    by_cases hb : b = 0
    · simp [hb]
    · simp only [hb, ite_false]
      have := ih (pos + 1)
      simp only [List.length_cons]
      omega

theorem skipToNulAux_char (u rest : List Nat) (hu : ∀ b ∈ u, b ≠ 0) :
    ∀ pos, skipToNulAux (u ++ 0 :: rest) pos = pos + u.length := by
  induction u with
  | nil => intro pos; simp [skipToNulAux]
  | cons b u' ih =>
    intro pos
    rw [List.cons_append, skipToNulAux, if_neg (hu b (by simp))]
    rw [ih (fun x hx => hu x (by simp [hx])) (pos + 1)]
    simp only [List.length_cons]
    omega

theorem recvStringLoopAux_trunc (c : Nat) :
    ∀ (s rest : List Nat) (pos : Nat) (acc : List Nat),
      (∀ b ∈ s, b ≠ 0) → 1 ≤ c → c ≤ s.length →
      recvStringLoopAux (s ++ 0 :: rest) c pos acc =
        (acc ++ s.take (c - 1), 0, pos + (c - 1)) := by
  induction c with
  | zero => intro s rest pos acc _ h1 _; omega
  | succ c ih =>
    intro s rest pos acc hs _ hcs
    cases s with
    | nil => simp at hcs
    | cons b s' =>
      rw [List.cons_append, recvStringLoopAux.eq_def]
      change (if c = 0 then (acc, c, pos)
        else if b = 0 then (acc ++ [b], c, pos + 1)
        else recvStringLoopAux (s' ++ 0 :: rest) c (pos + 1) (acc ++ [b])) = _
      by_cases hc0 : c = 0
      · subst hc0
        simp
      · rw [if_neg hc0, if_neg (hs b (by simp))]
        rw [ih s' rest (pos + 1) (acc ++ [b]) (fun x hx => hs x (by simp [hx]))
          (by omega) (by simp at hcs; omega)]
        obtain ⟨c', rfl⟩ : ∃ c', c = c' + 1 := ⟨c - 1, by omega⟩
        have harith : pos + 1 + (c' + 1 - 1) = pos + (c' + 1 + 1 - 1) := by omega
        rw [harith]
        simp [List.take_succ_cons, List.append_assoc]

theorem recvStringLoopAux_full (t : List Nat) :
    ∀ (rest : List Nat) (c pos : Nat) (acc : List Nat),
      (∀ b ∈ t, b ≠ 0) → t.length + 1 < c →
      recvStringLoopAux (t ++ 0 :: rest) c pos acc =
        (acc ++ t ++ [0], c - t.length - 1, pos + t.length + 1) := by
  induction t with
  | nil =>
    intro rest c pos acc _ hc
    rw [List.nil_append, recvStringLoopAux.eq_def]
    change (if (if c = 0 then sizeTMax else c - 1) = 0
        then (acc, if c = 0 then sizeTMax else c - 1, pos)
        else if (0 : Nat) = 0
        then (acc ++ [0], if c = 0 then sizeTMax else c - 1, pos + 1)
        else recvStringLoopAux rest (if c = 0 then sizeTMax else c - 1) (pos + 1)
          (acc ++ [0])) = _
    rw [if_neg (by omega : ¬ c = 0)]
    rw [if_neg (by omega : ¬ c - 1 = 0), if_pos rfl]
    simp
  | cons b t' ih =>
    intro rest c pos acc ht hc
    rw [List.cons_append, recvStringLoopAux.eq_def]
    change (if (if c = 0 then sizeTMax else c - 1) = 0
        then (acc, if c = 0 then sizeTMax else c - 1, pos)
        else if b = 0
        then (acc ++ [b], if c = 0 then sizeTMax else c - 1, pos + 1)
        else recvStringLoopAux (t' ++ 0 :: rest) (if c = 0 then sizeTMax else c - 1)
          (pos + 1) (acc ++ [b])) = _
    rw [if_neg (by omega : ¬ c = 0)]
    rw [if_neg (by omega : ¬ c - 1 = 0), if_neg (ht b (by simp))]
    rw [ih rest (c - 1) (pos + 1) (acc ++ [b]) (fun x hx => ht x (by simp [hx]))
      (by simp only [List.length_cons] at hc; omega)]
    have h1 : c - 1 - t'.length - 1 = c - (b :: t').length - 1 := by
      simp only [List.length_cons]
      omega
    have h2 : pos + 1 + t'.length + 1 = pos + (b :: t').length + 1 := by
      simp only [List.length_cons]
      omega
    rw [h1, h2]
    simp [List.append_assoc]

theorem takeWhile_append_nul (t x : List Nat) (ht : ∀ b ∈ t, b ≠ 0) :
    (t ++ 0 :: x).takeWhile (fun b => b ≠ 0) = t := by
  induction t with
  | nil => simp
  | cons b t' ih =>
    rw [List.cons_append, List.takeWhile_cons_of_pos (by simp [ht b (by simp)])]
    rw [ih fun y hy => ht y (by simp [hy])]

theorem recv_string_buf_trunc (p : Packet) (u s tail2 : List Nat) (c : Nat)
    (hq : p.has_quit = false)
    (hbuf : p.buffer = u ++ (s ++ 0 :: tail2)) (hpos : p.pos = u.length)
    (hs : ∀ b ∈ s, b ≠ 0) (hc1 : 1 ≤ c) (hcs : c ≤ s.length) :
    p.Recv_string_buf c =
      (str_validate (s.take (c - 1)) ++ [0], { p with pos := p.pos + s.length + 1 }) := by
  have hdrop : p.buffer.drop p.pos = s ++ 0 :: tail2 := by
    rw [hbuf, hpos, List.drop_left]
  rw [Packet.Recv_string_buf, if_neg (by simp [hq])]
  rw [recvStringLoop, hdrop, recvStringLoopAux_trunc c s tail2 p.pos [] hs hc1 hcs]
  change (if (0 : Nat) = 0 ∨ p.pos + (c - 1) = p.Size then
      (str_validate ((([] ++ s.take (c - 1)) ++ [0]).takeWhile (fun b => decide (b ≠ 0))) ++ [0],
       { p with pos := skipToNul p.buffer (p.pos + (c - 1)) + 1 })
    else
      (str_validate (([] ++ s.take (c - 1)).takeWhile (fun b => decide (b ≠ 0))) ++ [0],
       { p with pos := p.pos + (c - 1) })) = _
  rw [if_pos (Or.inl rfl)]
  have htake : ∀ b ∈ s.take (c - 1), b ≠ 0 := fun b hb => hs b (List.take_subset _ _ hb)
  have hw : (([] ++ s.take (c - 1)) ++ [0]).takeWhile (fun b => decide (b ≠ 0)) =
      s.take (c - 1) := by
    rw [List.nil_append]
    exact takeWhile_append_nul _ [] htake
  rw [hw]
  have hskip : skipToNul p.buffer (p.pos + (c - 1)) + 1 = p.pos + s.length + 1 := by
    have hd2 : p.buffer.drop (p.pos + (c - 1)) = s.drop (c - 1) ++ 0 :: tail2 := by
      rw [← List.drop_drop, hdrop, List.drop_append_of_le_length (by omega)]
    rw [skipToNul, hd2,
      skipToNulAux_char (s.drop (c - 1)) tail2 (fun b hb => hs b (List.drop_subset _ _ hb))]
    simp only [List.length_drop]
    omega
  rw [hskip]

theorem recv_string_buf_full_val (p : Packet) (u t tail2 : List Nat) (c : Nat)
    (hq : p.has_quit = false)
    (hbuf : p.buffer = u ++ (t ++ 0 :: tail2)) (hpos : p.pos = u.length)
    (ht : ∀ b ∈ t, b ≠ 0) (hc : t.length + 1 < c) :
    (p.Recv_string_buf c).1 = str_validate t ++ [0] := by
  have hdrop : p.buffer.drop p.pos = t ++ 0 :: tail2 := by
    rw [hbuf, hpos, List.drop_left]
  rw [Packet.Recv_string_buf, if_neg (by simp [hq])]
  rw [recvStringLoop, hdrop, recvStringLoopAux_full t tail2 c p.pos [] ht hc]
  change (if c - t.length - 1 = 0 ∨ p.pos + t.length + 1 = p.Size then
      (str_validate (((([] ++ t) ++ [0]) ++ [0]).takeWhile (fun b => decide (b ≠ 0))) ++ [0],
       { p with pos := skipToNul p.buffer (p.pos + t.length + 1) + 1 })
    else
      (str_validate ((([] ++ t) ++ [0]).takeWhile (fun b => decide (b ≠ 0))) ++ [0],
       { p with pos := p.pos + t.length + 1 })).1 = _
  have hw1 : ((([] ++ t) ++ [0]) ++ [0]).takeWhile (fun b => decide (b ≠ 0)) = t := by
    rw [List.nil_append, List.append_assoc]
    exact takeWhile_append_nul t [0] ht
  have hw2 : (([] ++ t) ++ [0]).takeWhile (fun b => decide (b ≠ 0)) = t := by
    rw [List.nil_append]
    exact takeWhile_append_nul t [] ht
  by_cases hend : c - t.length - 1 = 0 ∨ p.pos + t.length + 1 = p.Size
  · rw [if_pos hend, hw1]
  · rw [if_neg hend, hw2]

/-! ### C7: string truncation resynchronisation -/

/-- Claim C7: reading a NUL-terminated string at the cursor into a destination
of capacity c smaller than the string length copies the first c-1 source
bytes and NUL-terminates the destination, and advances the read cursor to
exactly one past the source string's real NUL terminator, so that a
subsequent Recv_string into a large-enough destination yields the following
string field intact. -/
theorem C7_truncation_resync (p : Packet) (u s t rest : List Nat) (c : Nat)
    (hq : p.has_quit = false)
    (hbuf : p.buffer = u ++ (s ++ 0 :: (t ++ 0 :: rest)))
    (hpos : p.pos = u.length)
    (hs : ∀ b ∈ s, 0x20 ≤ b ∧ b ≤ 0x7E)
    (ht : ∀ b ∈ t, 0x20 ≤ b ∧ b ≤ 0x7E)
    (hc1 : 1 ≤ c) (hcs : c < s.length) :
    (p.Recv_string_buf c).1 = s.take (c - 1) ++ [0] ∧
    (p.Recv_string_buf c).2.pos = p.pos + s.length + 1 ∧
    ∀ c2, t.length + 1 < c2 →
      ((p.Recv_string_buf c).2.Recv_string_buf c2).1 = t ++ [0] := by
  have hs0 : ∀ b ∈ s, b ≠ 0 := fun b hb => by have := hs b hb; omega
  have ht0 : ∀ b ∈ t, b ≠ 0 := fun b hb => by have := ht b hb; omega
  have hval : str_validate (s.take (c - 1)) = s.take (c - 1) :=
    List.filter_eq_self.mpr fun a ha => by
      have h2 := hs a (List.take_subset _ _ ha)
      simp only [decide_eq_true_eq]
      omega
  have tval : str_validate t = t :=
    List.filter_eq_self.mpr fun a ha => by
      have h2 := ht a ha
      simp only [decide_eq_true_eq]
      omega
  have h1 := recv_string_buf_trunc p u s (t ++ 0 :: rest) c hq hbuf hpos hs0 hc1 (by omega)
  refine ⟨?_, ?_, ?_⟩
  · rw [h1]
    show str_validate (s.take (c - 1)) ++ [0] = s.take (c - 1) ++ [0]
    rw [hval]
  · rw [h1]
  · intro c2 hc2
    rw [h1]
    have hq2 : ({ p with pos := p.pos + s.length + 1 } : Packet).has_quit = false := hq
    have hbuf2 : ({ p with pos := p.pos + s.length + 1 } : Packet).buffer =
        (u ++ (s ++ [0])) ++ (t ++ 0 :: rest) := by
      show p.buffer = _
      rw [hbuf]
      simp [List.append_assoc]
    have hpos2 : ({ p with pos := p.pos + s.length + 1 } : Packet).pos =
        (u ++ (s ++ [0])).length := by
      show p.pos + s.length + 1 = _
      simp [hpos]
      omega
    rw [recv_string_buf_full_val ({ p with pos := p.pos + s.length + 1 }) (u ++ (s ++ [0]))
      t rest c2 hq2 hbuf2 hpos2 ht0 hc2, tval]

/-- Witness: source bytes "HELLOWORLD\0NEXT\0" after a 2-byte header, read with
destination capacity 4: the destination receives "HEL\0", the cursor lands one
past the first terminator (offset 13), and the next read yields "NEXT". -/
theorem C7_truncation_resync_witness :
    (Packet.Recv_string_buf
        ⟨[0, 0, 72, 69, 76, 76, 79, 87, 79, 82, 76, 68, 0, 78, 69, 88, 84, 0],
         2, 100, false⟩ 4).1 = [72, 69, 76, 0] ∧
    (Packet.Recv_string_buf
        ⟨[0, 0, 72, 69, 76, 76, 79, 87, 79, 82, 76, 68, 0, 78, 69, 88, 84, 0],
         2, 100, false⟩ 4).2.pos = 13 ∧
    ((Packet.Recv_string_buf
        ⟨[0, 0, 72, 69, 76, 76, 79, 87, 79, 82, 76, 68, 0, 78, 69, 88, 84, 0],
         2, 100, false⟩ 4).2.Recv_string_buf 10).1 = [78, 69, 88, 84, 0] := by
  have h := C7_truncation_resync
    ⟨[0, 0, 72, 69, 76, 76, 79, 87, 79, 82, 76, 68, 0, 78, 69, 88, 84, 0], 2, 100, false⟩
    [0, 0] [72, 69, 76, 76, 79, 87, 79, 82, 76, 68] [78, 69, 88, 84] [] 4
    rfl rfl rfl (by decide) (by decide) (by decide) (by decide)
  exact ⟨h.1.trans (by decide), h.2.1.trans (by decide),
    (h.2.2 10 (by decide)).trans (by decide)⟩

/-! ### Cursor bounds for Recv_string -/

theorem recv_string_buf_pos_le (p : Packet) (c : Nat) (h : p.pos ≤ p.Size) :
    (p.Recv_string_buf c).2.pos ≤ p.Size + 1 := by
  have h' : p.pos ≤ p.buffer.length := h
  by_cases hq : p.has_quit
  · rw [Packet.Recv_string_buf, if_pos (by simp [hq])]
    exact Nat.le_succ_of_le h
  · rw [Packet.Recv_string_buf, if_neg (by simp [hq])]
    have hloop := recvStringLoopAux_pos_le (p.buffer.drop p.pos) c p.pos []
    rcases hr : recvStringLoopAux (p.buffer.drop p.pos) c p.pos [] with ⟨w, szr⟩
    rcases szr with ⟨sz, ps⟩
    rw [recvStringLoop, hr]
    rw [hr] at hloop
    have hps : ps ≤ p.buffer.length := by
      simp only [List.length_drop] at hloop
      have hl : ps ≤ p.pos + (p.buffer.length - p.pos) := hloop
      omega
    change (if sz = 0 ∨ ps = p.Size then
        (str_validate ((w ++ [0]).takeWhile (fun b => decide (b ≠ 0))) ++ [0],
         { p with pos := skipToNul p.buffer ps + 1 })
      else (str_validate (w.takeWhile (fun b => decide (b ≠ 0))) ++ [0],
         { p with pos := ps })).2.pos ≤ p.Size + 1
    by_cases hcond : sz = 0 ∨ ps = p.Size
    · rw [if_pos hcond]
      show skipToNul p.buffer ps + 1 ≤ p.buffer.length + 1
      have hskip := skipToNulAux_le (p.buffer.drop ps) ps
      simp only [List.length_drop] at hskip
      rw [skipToNul]
      omega
    · rw [if_neg hcond]
      show ps ≤ p.buffer.length + 1
      omega

theorem recv_string_std_pos_le (p : Packet) (h : p.pos < p.Size) :
    (p.Recv_string_std).2.pos ≤ p.Size := by
  have h' : p.pos < p.buffer.length := h
  by_cases hq : p.has_quit
  · rw [Packet.Recv_string_std, if_pos (by simp [hq])]
    exact Nat.le_of_lt h
  · rw [Packet.Recv_string_std, if_neg (by simp [hq])]
    show p.pos + Packet.ttd_strnlen (p.buffer.drop p.pos) (p.Size - p.pos - 1) + 1 ≤
      p.buffer.length
    have hlen : Packet.ttd_strnlen (p.buffer.drop p.pos) (p.Size - p.pos - 1) ≤
        p.Size - p.pos - 1 := by
      show (((p.buffer.drop p.pos).take (p.Size - p.pos - 1)).takeWhile
          (fun b => decide (b ≠ 0))).length ≤ p.Size - p.pos - 1
      refine le_trans (List.takeWhile_sublist _).length_le ?_
      rw [List.length_take]
      exact Nat.min_le_left _ _
    have hS : p.Size = p.buffer.length := rfl
    omega

theorem recv_fix_pos (p : Packet) :
    ((p.Recv_uint8).2.pos = p.pos ∨
      (p.Recv_uint8).2.pos = p.pos + 1 ∧ p.pos + 1 ≤ p.Size) ∧
    ((p.Recv_uint16).2.pos = p.pos ∨
      (p.Recv_uint16).2.pos = p.pos + 2 ∧ p.pos + 2 ≤ p.Size) ∧
    ((p.Recv_uint32).2.pos = p.pos ∨
      (p.Recv_uint32).2.pos = p.pos + 4 ∧ p.pos + 4 ≤ p.Size) ∧
    ((p.Recv_uint64).2.pos = p.pos ∨
      (p.Recv_uint64).2.pos = p.pos + 8 ∧ p.pos + 8 ≤ p.Size) ∧
    (∀ n, (p.Recv_binary n).2.pos = p.pos ∨
      (p.Recv_binary n).2.pos = p.pos + n ∧ p.pos + n ≤ p.Size) := by
  by_cases hq : p.has_quit = false
  · refine ⟨?_, ?_, ?_, ?_, fun n => ?_⟩
    · by_cases hb : p.pos + 1 ≤ p.Size
      · rw [recv_uint8_ok p hq hb]
        exact Or.inr ⟨rfl, hb⟩
      · rw [recv_uint8_fail p (Or.inr (Nat.lt_of_not_le hb))]
        exact Or.inl (fail_state_pos_buffer p).1
    · by_cases hb : p.pos + 2 ≤ p.Size
      · rw [recv_uint16_ok p hq hb]
        exact Or.inr ⟨rfl, hb⟩
      · rw [recv_uint16_fail p (Or.inr (Nat.lt_of_not_le hb))]
        exact Or.inl (fail_state_pos_buffer p).1
    · by_cases hb : p.pos + 4 ≤ p.Size
      · rw [recv_uint32_ok p hq hb]
        exact Or.inr ⟨rfl, hb⟩
      · rw [recv_uint32_fail p (Or.inr (Nat.lt_of_not_le hb))]
        exact Or.inl (fail_state_pos_buffer p).1
    · by_cases hb : p.pos + 8 ≤ p.Size
      · rw [recv_uint64_ok p hq hb]
        exact Or.inr ⟨rfl, hb⟩
      · rw [recv_uint64_fail p (Or.inr (Nat.lt_of_not_le hb))]
        exact Or.inl (fail_state_pos_buffer p).1
    · by_cases hb : p.pos + n ≤ p.Size
      · rw [Packet.Recv_binary, canRead_ok p n hq hb]
        exact Or.inr ⟨rfl, hb⟩
      · rw [recv_binary_fail p n (Or.inr (Nat.lt_of_not_le hb))]
        exact Or.inl (fail_state_pos_buffer p).1
  · have hq' : p.has_quit = true := by
      revert hq
      cases p.has_quit <;> simp
    refine ⟨?_, ?_, ?_, ?_, fun n => ?_⟩ <;>
      first
      | (rw [recv_uint8_fail p (Or.inl hq')]; exact Or.inl (fail_state_pos_buffer p).1)
      | (rw [recv_uint16_fail p (Or.inl hq')]; exact Or.inl (fail_state_pos_buffer p).1)
      | (rw [recv_uint32_fail p (Or.inl hq')]; exact Or.inl (fail_state_pos_buffer p).1)
      | (rw [recv_uint64_fail p (Or.inl hq')]; exact Or.inl (fail_state_pos_buffer p).1)
      | (rw [recv_binary_fail p n (Or.inl hq')]; exact Or.inl (fail_state_pos_buffer p).1)

/-! ### C4: read-position invariant -/

/-- Claim C4 (as stated) is false: after Recv_string(char*) the cursor can
stand one byte past the end of the storage.  Concretely, for a received
4-byte frame [4,0,65,0] with the cursor at 2 (as ParsePacketSize leaves it),
reading the string "A" whose NUL terminator is the last byte of the packet
leaves read_pos = 5 > storage.length() = 4. -/
theorem C4_counterexample :
    ¬ ((Packet.Recv_string_buf ⟨[4, 0, 65, 0], 2, 100, false⟩ 10).2.pos ≤
       (Packet.Recv_string_buf ⟨[4, 0, 65, 0], 2, 100, false⟩ 10).2.Size) := by decide

/-- Claim C4 (amended): starting from any packet state satisfying
read_pos ≤ storage.length(), the invariant is preserved by construction,
every Send operation, PrepareToSend, ParsePacketSize, PrepareToRead (once the
2-byte header is present) and every fixed-width Recv operation (whose buffers
are left unchanged); after Recv_string(char*) only
read_pos ≤ storage.length() + 1 is guaranteed — read_pos exceeds the storage
length exactly in the unterminated-source and terminator-at-last-byte cases —
and Recv_string(std::string&) preserves the invariant whenever the cursor is
strictly inside the buffer (at read_pos = storage.length() it reads out of
bounds in the C++). -/
theorem C4_read_pos_invariant (p : Packet) (hinv : p.pos ≤ p.Size) :
    (∀ limit irs, (Packet.mkRecv limit irs).pos ≤ (Packet.mkRecv limit irs).Size) ∧
    (∀ type limit, (Packet.mkSend type limit).pos ≤ (Packet.mkSend type limit).Size) ∧
    (∀ v, (p.Send_uint8 v).pos ≤ (p.Send_uint8 v).Size) ∧
    (∀ b, (p.Send_bool b).pos ≤ (p.Send_bool b).Size) ∧
    (∀ v, (p.Send_uint16 v).pos ≤ (p.Send_uint16 v).Size) ∧
    (∀ v, (p.Send_uint32 v).pos ≤ (p.Send_uint32 v).Size) ∧
    (∀ v, (p.Send_uint64 v).pos ≤ (p.Send_uint64 v).Size) ∧
    (∀ s, (p.Send_string s).pos ≤ (p.Send_string s).Size) ∧
    (∀ d, (p.Send_binary d).pos ≤ (p.Send_binary d).Size) ∧
    (∀ d, (p.Send_bytes d).2.pos ≤ (p.Send_bytes d).2.Size) ∧
    (p.PrepareToSend.pos ≤ p.PrepareToSend.Size) ∧
    ((p.ParsePacketSize).2.pos ≤ (p.ParsePacketSize).2.Size) ∧
    (2 ≤ p.Size → p.PrepareToRead.pos ≤ p.PrepareToRead.Size) ∧
    ((p.Recv_bool).2.pos ≤ p.Size) ∧
    ((p.Recv_uint8).2.pos ≤ p.Size) ∧
    ((p.Recv_uint16).2.pos ≤ p.Size) ∧
    ((p.Recv_uint32).2.pos ≤ p.Size) ∧
    ((p.Recv_uint64).2.pos ≤ p.Size) ∧
    (∀ n, (p.Recv_binary n).2.pos ≤ p.Size) ∧
    (∀ c, (p.Recv_string_buf c).2.pos ≤ p.Size + 1) ∧
    (p.pos < p.Size → (p.Recv_string_std).2.pos ≤ p.Size) := by
  obtain ⟨h8, h16, h32, h64, hbin⟩ := recv_fix_pos p
  have hinv' : p.pos ≤ p.buffer.length := hinv
  refine ⟨fun limit irs => Nat.zero_le _, fun type limit => Nat.zero_le _, ?_, ?_, ?_,
    ?_, ?_, ?_, ?_, ?_, Nat.zero_le _, ?_, fun h2 => ?_, ?_, ?_, ?_, ?_, ?_, fun n => ?_,
    fun c => recv_string_buf_pos_le p c hinv, recv_string_std_pos_le p⟩
  · intro v
    show p.pos ≤ (p.buffer ++ _).length
    simp only [List.length_append]
    omega
  · intro b
    show p.pos ≤ (p.buffer ++ _).length
    simp only [List.length_append]
    omega
  · intro v
    show p.pos ≤ (p.buffer ++ _).length
    simp only [List.length_append]
    omega
  · intro v
    show p.pos ≤ (p.buffer ++ _).length
    simp only [List.length_append]
    omega
  · intro v
    show p.pos ≤ (p.buffer ++ _).length
    simp only [List.length_append]
    omega
  · intro s
    show p.pos ≤ ((p.buffer ++ s) ++ [0]).length
    simp only [List.length_append]
    omega
  · intro d
    show p.pos ≤ (p.buffer ++ d).length
    simp only [List.length_append]
    omega
  · intro d
    show p.pos ≤ (p.buffer ++ _).length
    simp only [List.length_append]
    omega
  · by_cases hcond : p.buffer.getD 0 0 + ((p.buffer.getD 1 0) <<< 8) < 3 ∨
        p.buffer.getD 0 0 + ((p.buffer.getD 1 0) <<< 8) > p.limit
    · have hres : p.ParsePacketSize = (false, p) := by
        unfold Packet.ParsePacketSize
        rw [if_pos hcond]
      rw [hres]
      exact hinv
    · have hres : p.ParsePacketSize =
          (true,
           { p with
              buffer := Packet.listResize p.buffer
                (p.buffer.getD 0 0 + ((p.buffer.getD 1 0) <<< 8)),
              pos := 2 }) := by
        unfold Packet.ParsePacketSize
        rw [if_neg hcond]
      rw [hres]
      show 2 ≤ (Packet.listResize p.buffer _).length
      rw [length_listResize]
      omega
  · exact h2
  · rcases hr : p.Recv_uint8 with ⟨n, p'⟩
    rw [Packet.Recv_bool, hr]
    rw [hr] at h8
    show p'.pos ≤ p.Size
    rcases h8 with h | h
    · rw [show (n, p').2.pos = p'.pos from rfl] at h
      omega
    · rw [show (n, p').2.pos = p'.pos from rfl] at h
      omega
  · rcases h8 with h | h <;> omega
  · rcases h16 with h | h <;> omega
  · rcases h32 with h | h <;> omega
  · rcases h64 with h | h <;> omega
  · rcases hbin n with h | h <;> omega

/-- Witness: on a received 4-byte frame with the cursor at 2, a fixed-width
read keeps the cursor within the storage, and the Recv_string call of the
counterexample stays within the amended storage-length-plus-one bound. -/
theorem C4_read_pos_invariant_witness :
    (Packet.Recv_uint8 ⟨[4, 0, 65, 0], 2, 100, false⟩).2.pos ≤
      (⟨[4, 0, 65, 0], 2, 100, false⟩ : Packet).Size ∧
    (Packet.Recv_string_buf ⟨[4, 0, 65, 0], 2, 100, false⟩ 10).2.pos ≤
      (⟨[4, 0, 65, 0], 2, 100, false⟩ : Packet).Size + 1 := by
  obtain ⟨-, -, -, -, -, -, -, -, -, -, -, -, -, -, hu8, -, -, -, -, hsb, -⟩ :=
    C4_read_pos_invariant ⟨[4, 0, 65, 0], 2, 100, false⟩ (by decide)
  exact ⟨hu8, hsb 10⟩

/-! ### C8: length prefix integrity -/

/-- Outgoing packets built by the constructor and a sequence of successful
Send calls (each passing its CanWriteToPacket assertion; Send_bytes asserts
nothing, being best-effort).  The constructor itself requires limit > 3 for
its own Send_uint16/Send_uint8 assertions to pass. -/
inductive SendReachable : Packet → Prop where
  | base (type limit : Nat) (h : 3 < limit) : SendReachable (Packet.mkSend type limit)
  | snd_u8 (p : Packet) (v : Nat) (h : SendReachable p)
      (hw : p.CanWriteToPacket 1 = true) : SendReachable (p.Send_uint8 v)
  | snd_bool (p : Packet) (b : Bool) (h : SendReachable p)
      (hw : p.CanWriteToPacket 1 = true) : SendReachable (p.Send_bool b)
  | snd_u16 (p : Packet) (v : Nat) (h : SendReachable p)
      (hw : p.CanWriteToPacket 2 = true) : SendReachable (p.Send_uint16 v)
  | snd_u32 (p : Packet) (v : Nat) (h : SendReachable p)
      (hw : p.CanWriteToPacket 4 = true) : SendReachable (p.Send_uint32 v)
  | snd_u64 (p : Packet) (v : Nat) (h : SendReachable p)
      (hw : p.CanWriteToPacket 8 = true) : SendReachable (p.Send_uint64 v)
  | snd_string (p : Packet) (s : List Nat) (h : SendReachable p)
      (hw : p.CanWriteToPacket (s.length + 1) = true) : SendReachable (p.Send_string s)
  | snd_binary (p : Packet) (d : List Nat) (h : SendReachable p)
      (hw : p.CanWriteToPacket d.length = true) : SendReachable (p.Send_binary d)
  | snd_bytes (p : Packet) (d : List Nat) (h : SendReachable p) :
      SendReachable (p.Send_bytes d).2

theorem sendReachable_inv {p : Packet} (h : SendReachable p) :
    3 ≤ p.Size ∧ p.Size ≤ p.limit ∧ p.pos = 0 ∧ 3 < p.limit := by
  induction h with
  | base type limit hlim =>
    exact ⟨Nat.le_refl 3, Nat.le_of_lt hlim, rfl, hlim⟩
  | snd_u8 p v h hw ih =>
    obtain ⟨i1, i2, i3, i4⟩ := ih
    have i1' : 3 ≤ p.buffer.length := i1
    have hw' : p.buffer.length + 1 < p.limit := by
      simpa [Packet.CanWriteToPacket, Packet.Size] using hw
    refine ⟨?_, ?_, i3, i4⟩
    · show 3 ≤ (p.buffer ++ [v % 256]).length
      simp only [List.length_append, List.length_cons, List.length_nil]
      omega
    · show (p.buffer ++ [v % 256]).length ≤ p.limit
      simp only [List.length_append, List.length_cons, List.length_nil]
      omega
  | snd_bool p b h hw ih =>
    obtain ⟨i1, i2, i3, i4⟩ := ih
    have i1' : 3 ≤ p.buffer.length := i1
    have hw' : p.buffer.length + 1 < p.limit := by
      simpa [Packet.CanWriteToPacket, Packet.Size] using hw
    refine ⟨?_, ?_, i3, i4⟩
    · show 3 ≤ (p.buffer ++ [(if b then 1 else 0) % 256]).length
      simp only [List.length_append, List.length_cons, List.length_nil]
      omega
    · show (p.buffer ++ [(if b then 1 else 0) % 256]).length ≤ p.limit
      simp only [List.length_append, List.length_cons, List.length_nil]
      omega
  | snd_u16 p v h hw ih =>
    obtain ⟨i1, i2, i3, i4⟩ := ih
    have i1' : 3 ≤ p.buffer.length := i1
    have hw' : p.buffer.length + 2 < p.limit := by
      simpa [Packet.CanWriteToPacket, Packet.Size] using hw
    refine ⟨?_, ?_, i3, i4⟩
    · show 3 ≤ (p.buffer ++ [GB v 0 8, GB v 8 8]).length
      simp only [List.length_append, List.length_cons, List.length_nil]
      omega
    · show (p.buffer ++ [GB v 0 8, GB v 8 8]).length ≤ p.limit
      simp only [List.length_append, List.length_cons, List.length_nil]
      omega
  | snd_u32 p v h hw ih =>
    obtain ⟨i1, i2, i3, i4⟩ := ih
    have i1' : 3 ≤ p.buffer.length := i1
    have hw' : p.buffer.length + 4 < p.limit := by
      simpa [Packet.CanWriteToPacket, Packet.Size] using hw
    refine ⟨?_, ?_, i3, i4⟩
    · show 3 ≤ (p.buffer ++ [GB v 0 8, GB v 8 8, GB v 16 8, GB v 24 8]).length
      simp only [List.length_append, List.length_cons, List.length_nil]
      omega
    · show (p.buffer ++ [GB v 0 8, GB v 8 8, GB v 16 8, GB v 24 8]).length ≤ p.limit
      simp only [List.length_append, List.length_cons, List.length_nil]
      omega
  | snd_u64 p v h hw ih =>
    obtain ⟨i1, i2, i3, i4⟩ := ih
    have i1' : 3 ≤ p.buffer.length := i1
    have hw' : p.buffer.length + 8 < p.limit := by
      simpa [Packet.CanWriteToPacket, Packet.Size] using hw
    refine ⟨?_, ?_, i3, i4⟩
    · show 3 ≤ (p.buffer ++ [GB v 0 8, GB v 8 8, GB v 16 8, GB v 24 8, GB v 32 8,
        GB v 40 8, GB v 48 8, GB v 56 8]).length
      simp only [List.length_append, List.length_cons, List.length_nil]
      omega
    · show (p.buffer ++ [GB v 0 8, GB v 8 8, GB v 16 8, GB v 24 8, GB v 32 8,
        GB v 40 8, GB v 48 8, GB v 56 8]).length ≤ p.limit
      simp only [List.length_append, List.length_cons, List.length_nil]
      omega
  | snd_string p s h hw ih =>
    obtain ⟨i1, i2, i3, i4⟩ := ih
    have i1' : 3 ≤ p.buffer.length := i1
    have hw' : p.buffer.length + (s.length + 1) < p.limit := by
      simpa [Packet.CanWriteToPacket, Packet.Size] using hw
    refine ⟨?_, ?_, i3, i4⟩
    · show 3 ≤ ((p.buffer ++ s) ++ [0]).length
      simp only [List.length_append, List.length_cons, List.length_nil]
      omega
    · show ((p.buffer ++ s) ++ [0]).length ≤ p.limit
      simp only [List.length_append, List.length_cons, List.length_nil]
      omega
  | snd_binary p d h hw ih =>
    obtain ⟨i1, i2, i3, i4⟩ := ih
    have i1' : 3 ≤ p.buffer.length := i1
    have hw' : p.buffer.length + d.length < p.limit := by
      simpa [Packet.CanWriteToPacket, Packet.Size] using hw
    refine ⟨?_, ?_, i3, i4⟩
    · show 3 ≤ (p.buffer ++ d).length
      simp only [List.length_append, List.length_cons, List.length_nil]
      omega
    · show (p.buffer ++ d).length ≤ p.limit
      simp only [List.length_append, List.length_cons, List.length_nil]
      omega
  | snd_bytes p d h ih =>
    obtain ⟨i1, i2, i3, i4⟩ := ih
    have i1' : 3 ≤ p.buffer.length := i1
    have i2' : p.buffer.length ≤ p.limit := i2
    have hS : p.Size = p.buffer.length := rfl
    refine ⟨?_, ?_, i3, i4⟩
    · show 3 ≤ (p.buffer ++ d.take (min d.length (p.limit - p.Size))).length
      simp only [List.length_append, List.length_cons, List.length_nil]
      omega
    · show (p.buffer ++ d.take (min d.length (p.limit - p.Size))).length ≤ p.limit
      simp only [List.length_append, List.length_take]
      omega

/-- Claim C8: for every outgoing packet built by successful Send calls (within
the uint16-representable limits the wire format's 2-byte length field
supports), after PrepareToSend the first two bytes decode little-endian to the
total buffer size, the total size is at least 3, and the read cursor is 0. -/
theorem C8_length_prefix (p : Packet) (h : SendReachable p) (hlim : p.limit ≤ 65535) :
    p.PrepareToSend.buffer.getD 0 0 + ((p.PrepareToSend.buffer.getD 1 0) <<< 8) =
      p.PrepareToSend.Size ∧
    3 ≤ p.PrepareToSend.Size ∧
    p.PrepareToSend.pos = 0 := by
  obtain ⟨i1, i2, -, -⟩ := sendReachable_inv h
  have i1' : 3 ≤ p.buffer.length := i1
  have i2' : p.buffer.length ≤ p.limit := i2
  have hlen : p.PrepareToSend.Size = p.buffer.length := by
    show ((p.buffer.set 0 (GB p.Size 0 8)).set 1 (GB p.Size 8 8)).length = _
    simp
  have hget0 : p.PrepareToSend.buffer.getD 0 0 = GB p.Size 0 8 := by
    show ((p.buffer.set 0 (GB p.Size 0 8)).set 1 (GB p.Size 8 8)).getD 0 0 = _
    rw [List.getD_eq_getElem?_getD, List.getElem?_set_ne (by decide : (1 : Nat) ≠ 0),
      List.getElem?_set_self (by omega)]
    rfl
  have hget1 : p.PrepareToSend.buffer.getD 1 0 = GB p.Size 8 8 := by
    show ((p.buffer.set 0 (GB p.Size 0 8)).set 1 (GB p.Size 8 8)).getD 1 0 = _
    rw [List.getD_eq_getElem?_getD, List.getElem?_set_self (by simp; omega)]
    rfl
  refine ⟨?_, by omega, rfl⟩
  rw [hget0, hget1, hlen, GB_eq_div_mod, GB_eq_div_mod, Nat.shiftLeft_eq]
  have hS : p.Size = p.buffer.length := rfl
  rw [hS]
  omega

/-- Witness: a fresh packet with one extra byte written has, after
PrepareToSend, a length prefix decoding to its size 4, with the cursor reset
to 0. -/
theorem C8_length_prefix_witness :
    (Packet.Send_uint8 (Packet.mkSend 1 100) 5).PrepareToSend.buffer.getD 0 0 +
      (((Packet.Send_uint8 (Packet.mkSend 1 100) 5).PrepareToSend.buffer.getD 1 0) <<< 8) = 4 ∧
    3 ≤ (Packet.Send_uint8 (Packet.mkSend 1 100) 5).PrepareToSend.Size ∧
    (Packet.Send_uint8 (Packet.mkSend 1 100) 5).PrepareToSend.pos = 0 := by
  have h := C8_length_prefix (Packet.Send_uint8 (Packet.mkSend 1 100) 5)
    (SendReachable.snd_u8 (Packet.mkSend 1 100) 5 (SendReachable.base 1 100 (by omega))
      (by decide)) (by decide)
  exact ⟨h.1.trans (by decide), h.2.1, h.2.2⟩

/-! ### C9: FIFO queue draining -/

/-- The shape of a partially drained queue: the front buffer has send cursor
`q`, every later buffer still has cursor 0. -/
def tailQueue : List (List Nat) → Nat → List (List Nat × Nat)
  | [], _ => []
  | b :: bs, q => (b, q) :: bs.map (fun x => (x, 0))

/-- The bytes of a queue not yet handed to the socket. -/
def flattenRem (queue : List (List Nat × Nat)) : List Nat :=
  (queue.map fun bp => bp.1.drop bp.2).flatten

theorem tailQueue_zero (bs : List (List Nat)) :
    tailQueue bs 0 = bs.map (fun x => (x, 0)) := by
  cases bs <;> rfl

theorem flattenRem_cons (buf : List Nat) (pos : Nat) (rest : List (List Nat × Nat)) :
    flattenRem ((buf, pos) :: rest) = buf.drop pos ++ flattenRem rest := by
  simp [flattenRem]

/-- The send loop only hands bytes to the socket in queue order: the
transcript grows by exactly the bytes removed from the queue's remainder. -/
theorem sendLoop_rem (queue : List (List Nat × Nat)) :
    ∀ (sent : List Nat) (oracle : List SendRes),
      (sendLoop queue sent oracle).2.1 ++ flattenRem (sendLoop queue sent oracle).1 =
        sent ++ flattenRem queue := by
  induction queue with
  | nil => intro sent oracle; rfl
  | cons hd rest ih =>
    rcases hd with ⟨buf, pos⟩
    intro sent oracle
    match oracle with
    | [] => rfl
    | r :: oracle' =>
      match r with
      | .wouldblock => rfl
      | .err => rfl
      | .accept n =>
        rw [sendLoop]
        by_cases hn : n = 0
        · rw [if_pos hn]
        · rw [if_neg hn]
          by_cases hpop : pos + min n (buf.length - pos) = buf.length
          · rw [if_pos hpop]
            rw [ih (sent ++ (buf.drop pos).take (min n (buf.length - pos))) oracle']
            rw [flattenRem_cons, List.append_assoc]
            congr 1
            have : (buf.drop pos).take (min n (buf.length - pos)) = buf.drop pos := by
              apply List.take_of_length_le
              simp only [List.length_drop]
              omega
            rw [this]
          · rw [if_neg hpop]
            rw [flattenRem_cons, flattenRem_cons]
            have hsplit : (buf.drop pos).take (min n (buf.length - pos)) ++
                buf.drop (pos + min n (buf.length - pos)) = buf.drop pos := by
              rw [← List.drop_drop]
              exact List.take_append_drop _ _
            nth_rewrite 2 [← hsplit]
            simp only [List.append_assoc]

/-- The send loop removes buffers only from the front, and only once fully
sent: the resulting queue is always a suffix of the original buffer list with
only its front buffer's cursor advanced. -/
theorem sendLoop_shape (bs : List (List Nat)) :
    ∀ (q : Nat) (sent : List Nat) (oracle : List SendRes),
      q ≤ (bs.headD []).length → (bs = [] → q = 0) →
      ∃ j q', j ≤ bs.length ∧
        (sendLoop (tailQueue bs q) sent oracle).1 = tailQueue (bs.drop j) q' ∧
        q' ≤ ((bs.drop j).headD []).length ∧ (bs.drop j = [] → q' = 0) := by
  induction bs with
  | nil =>
    intro q sent oracle _ hq0
    exact ⟨0, 0, Nat.le_refl 0, rfl, Nat.zero_le _, fun _ => rfl⟩
  | cons b bs' ih =>
    intro q sent oracle hqle _
    match oracle with
    | [] => exact ⟨0, q, Nat.zero_le _, rfl, hqle, by simp⟩
    | r :: oracle' =>
      match r with
      | .wouldblock => exact ⟨0, q, Nat.zero_le _, rfl, hqle, by simp⟩
      | .err => exact ⟨0, q, Nat.zero_le _, rfl, hqle, by simp⟩
      | .accept n =>
        show ∃ j q', j ≤ bs'.length + 1 ∧
          (sendLoop ((b, q) :: bs'.map (fun x => (x, 0))) sent (SendRes.accept n :: oracle')).1 =
            tailQueue ((b :: bs').drop j) q' ∧ _ ∧ _
        rw [sendLoop]
        by_cases hn : n = 0
        · rw [if_pos hn]
          exact ⟨0, q, Nat.zero_le _, rfl, hqle, by simp⟩
        · rw [if_neg hn]
          by_cases hpop : q + min n (b.length - q) = b.length
          · rw [if_pos hpop]
            rw [← tailQueue_zero]
            obtain ⟨j', q', hj', hshape, hq'le, hq'0⟩ :=
              ih 0 (sent ++ (b.drop q).take (min n (b.length - q))) oracle'
                (Nat.zero_le _) (fun _ => rfl)
            exact ⟨j' + 1, q', by omega, hshape, hq'le, hq'0⟩
          · rw [if_neg hpop]
            refine ⟨0, q + min n (b.length - q), Nat.zero_le _, rfl, ?_, by simp⟩
            show q + min n (b.length - q) ≤ b.length
            have hq : q ≤ b.length := hqle
            omega

/-- The sender invariant for a connection whose queue was filled with the
buffers `orig`: the queue is a suffix of `orig` with only the front cursor
advanced, and the transcript plus the queue remainder is exactly the
concatenation of `orig`. -/
def ConnInv (orig : List (List Nat)) (c : Conn) : Prop :=
  ∃ k q, k ≤ orig.length ∧ c.queue = tailQueue (orig.drop k) q ∧
    q ≤ ((orig.drop k).headD []).length ∧ (orig.drop k = [] → q = 0) ∧
    c.sent ++ flattenRem c.queue = orig.flatten

theorem sendPackets_inv (orig : List (List Nat)) (c : Conn) (oracle : List SendRes)
    (h : ConnInv orig c) : ConnInv orig (Send_Packets c oracle).1 := by
  unfold Send_Packets
  by_cases hcl : c.closed
  · rw [if_pos hcl]
    exact h
  · rw [if_neg hcl]
    obtain ⟨k, q, hk, hqueue, hqle, hq0, hsum⟩ := h
    obtain ⟨j, q', hj, hshape, hq'le, hq'0⟩ :=
      sendLoop_shape (orig.drop k) q c.sent oracle hqle hq0
    have hrem := sendLoop_rem c.queue c.sent oracle
    rcases hr : sendLoop c.queue c.sent oracle with ⟨q1, s1, cl1, o1⟩
    rw [← hqueue, hr] at hshape
    rw [hr] at hrem
    refine ⟨k + j, q', ?_, ?_, ?_, ?_, ?_⟩
    · have hj' := hj
      simp only [List.length_drop] at hj'
      omega
    · show q1 = tailQueue (orig.drop (k + j)) q'
      rw [← List.drop_drop]
      exact hshape
    · show q' ≤ ((orig.drop (k + j)).headD []).length
      rw [← List.drop_drop]
      exact hq'le
    · show orig.drop (k + j) = [] → q' = 0
      rw [← List.drop_drop]
      exact hq'0
    · show s1 ++ flattenRem q1 = orig.flatten
      rw [hrem]
      exact hsum

theorem runSendPackets_inv (orig : List (List Nat)) (fuel : Nat) :
    ∀ (c : Conn) (oracle : List SendRes),
      ConnInv orig c → ConnInv orig (runSendPackets fuel c oracle) := by
  induction fuel with
  | zero => intro c oracle h; exact h
  | succ f ih =>
    intro c oracle h
    rw [runSendPackets]
    have hstep := sendPackets_inv orig c oracle h
    rcases hr : Send_Packets c oracle with ⟨c', o'⟩
    rw [hr] at hstep
    exact ih c' o' hstep

theorem flattenRem_map_zero (tl : List (List Nat)) :
    flattenRem (tl.map (fun x => (x, 0))) = tl.flatten := by
  simp [flattenRem, List.map_map, Function.comp_def]

theorem connInv_sent_char (orig : List (List Nat)) (c : Conn) (k q : Nat)
    (hqueue : c.queue = tailQueue (orig.drop k) q)
    (hsum : c.sent ++ flattenRem c.queue = orig.flatten) :
    c.sent = (orig.take k).flatten ++ ((orig.drop k).headD []).take q := by
  cases hd : orig.drop k with
  | nil =>
    rw [hqueue, hd] at hsum
    have hsent : c.sent = orig.flatten := by
      simpa [tailQueue, flattenRem] using hsum
    have htake : orig.take k = orig := by
      apply List.take_of_length_le
      exact List.drop_eq_nil_iff.mp hd
    rw [hsent, htake]
    simp [hd]
  | cons hdl tl =>
    rw [hqueue, hd] at hsum
    have hrem : flattenRem (tailQueue (hdl :: tl) q) = hdl.drop q ++ tl.flatten := by
      show flattenRem ((hdl, q) :: tl.map (fun x => (x, 0))) = _
      rw [flattenRem_cons, flattenRem_map_zero]
    rw [hrem] at hsum
    have htot2 : orig.flatten =
        ((orig.take k).flatten ++ hdl.take q) ++ (hdl.drop q ++ tl.flatten) := by
      conv_lhs => rw [← List.take_append_drop k orig]
      rw [List.flatten_append, hd]
      simp only [List.flatten_cons]
      conv_lhs => rw [← List.take_append_drop q hdl]
      simp only [List.append_assoc]
    rw [htot2] at hsum
    have hcancel := List.append_cancel_right hsum
    simpa using hcancel

/-- A connection on which the prepared buffers A, B, C were enqueued in order
via Send_Packet, then driven by `fuel` Send_Packets calls against the socket
results `oracle`. -/
def threeQueueRun (A B C : List Nat) (fuel : Nat) (oracle : List SendRes) : Conn :=
  runSendPackets fuel (Send_Packet (Send_Packet (Send_Packet ⟨[], [], false⟩ A) B) C) oracle

/-- Claim C9: for packets enqueued in order A, B, C and any sequence of
partial socket-write results, repeated Send_Packets calls hand the bytes of
A, B, C to the socket in exactly that order — the transcript plus the
untransmitted remainder is always the concatenation A ++ B ++ C, so the
transcript is always a prefix of it, packets are removed only from the front
and only after all their bytes were transmitted (the queue is a suffix of
[A,B,C] whose earlier members are wholly inside the transcript), and a
drained queue means everything was transmitted. -/
theorem C9_queue_order (A B C : List Nat) (fuel : Nat) (oracle : List SendRes) :
    (threeQueueRun A B C fuel oracle).sent ++
        flattenRem (threeQueueRun A B C fuel oracle).queue = A ++ (B ++ C) ∧
    (threeQueueRun A B C fuel oracle).sent =
      (A ++ (B ++ C)).take (threeQueueRun A B C fuel oracle).sent.length ∧
    (∃ k q, k ≤ 3 ∧
      (threeQueueRun A B C fuel oracle).queue = tailQueue ([A, B, C].drop k) q ∧
      (threeQueueRun A B C fuel oracle).sent =
        ([A, B, C].take k).flatten ++ (([A, B, C].drop k).headD []).take q) ∧
    ((threeQueueRun A B C fuel oracle).queue = [] →
      (threeQueueRun A B C fuel oracle).sent = A ++ (B ++ C)) := by
  have hinit : ConnInv [A, B, C]
      (Send_Packet (Send_Packet (Send_Packet ⟨[], [], false⟩ A) B) C) := by
    refine ⟨0, 0, Nat.zero_le _, ?_, Nat.zero_le _, fun _ => rfl, ?_⟩
    · rfl
    · simp [Send_Packet, flattenRem]
  have hfin := runSendPackets_inv [A, B, C] fuel _ oracle hinit
  obtain ⟨k, q, hk, hqueue, hqle, hq0, hsum⟩ := hfin
  have hflat : ([A, B, C] : List (List Nat)).flatten = A ++ (B ++ C) := by simp
  have hchar := connInv_sent_char [A, B, C] _ k q hqueue hsum
  refine ⟨?_, ?_, ⟨k, q, by simpa using hk, hqueue, hchar⟩, ?_⟩
  · show (threeQueueRun A B C fuel oracle).sent ++
      flattenRem (threeQueueRun A B C fuel oracle).queue = A ++ (B ++ C)
    rw [← hflat]
    exact hsum
  · rw [← hflat, ← hsum]
    exact (List.take_left _ _).symm
  · intro hempty
    have hsum' : (threeQueueRun A B C fuel oracle).sent ++
        flattenRem (threeQueueRun A B C fuel oracle).queue =
        ([A, B, C] : List (List Nat)).flatten := hsum
    rw [hempty] at hsum'
    have hsent : (threeQueueRun A B C fuel oracle).sent =
        ([A, B, C] : List (List Nat)).flatten := by
      simpa [flattenRem] using hsum'
    rw [hsent, hflat]
